import Mathlib

/-!
Verification development for the `pi` agent runtime.

The definitions below are a shallow embedding of the conversation engine in
`src/agent/agent.ts` (event type, the two protocol-adapter round loops,
`Agent.chat`, `Agent.setEvents`), of the legacy gpt-oss loop and `executeTool`
in `src/commands/prompt.ts` (the file also present as `src/unnamed/part_007`),
and of `SessionManager.logSession` in `src/commands/session-manager.ts`.
External effects (the network round-trip, tool side effects, the abort signal)
are modelled as oracle parameters: a script `Nat → …` giving the outcome of the
n-th network call, a tool oracle giving the outcome of the n-th tool
invocation, and an abort schedule `Nat → Bool` read at each `signal?.aborted`
check (checks are numbered by a tick counter threaded through the state).
-/

namespace Pi

/-- Event type of the engine (`AgentEvent` in src/agent/agent.ts). -/
inductive AgentEvent where
  | assistant_start
  | thinking (text : String)
  | tool_call (toolCallId : String) (name : String) (args : String)
  | tool_result (toolCallId : String) (result : String) (isError : Bool)
  | assistant_message (text : String)
  | error (message : String)
  | user_message (text : String)
  | interrupted
  | token_usage (inputTokens outputTokens totalTokens cacheReadTokens cacheWriteTokens : Nat)
  deriving DecidableEq

/-- Content elements of a responses-API output item, discriminated by their
`type` field in the source (`reasoning_text`, `output_text`, `refusal`). -/
inductive RespContent where
  | reasoning_text (text : String)
  | output_text (text : String)
  | refusal (refusal : String)
  | otherContent (ctype : String)
  deriving DecidableEq

/-- An output item of the responses API (`response.output` elements): its
`type` discriminator, optional `id`, `name`/`arguments` (used when the item is
a function call), optional `call_id`, and its content list. -/
structure OutputItem where
  itemType : String
  id : Option String
  name : String
  arguments : String
  call_id : Option String
  content : List RespContent
  deriving DecidableEq

/-- Usage block of a responses-API response; absent numeric fields are `none`
(the source reads them with `|| 0`). -/
structure RespUsage where
  input_tokens : Option Nat
  output_tokens : Option Nat
  total_tokens : Option Nat
  cached_tokens : Option Nat
  deriving DecidableEq

/-- A responses-API response: optional usage and optional output list. -/
structure RespResponse where
  usage : Option RespUsage
  output : Option (List OutputItem)
  deriving DecidableEq

/-- Outcome of one network call: a response, an abort of the in-flight request
by the cancellation signal, or some other thrown failure. -/
inductive NetOutcome (α : Type) where
  | ok (resp : α)
  | abortErr
  | throwErr (msg : String)
  deriving DecidableEq

/-- Transcript entries of the responses flavor as appended by the live loop:
the system/user entries, a pushed output item (with a flag recording whether
its `type` field is still present), and `function_call_output` entries (the
error push in src/agent/agent.ts adds an extra `isError` field, the success
push does not, hence the `Option Bool`). -/
inductive RMsg where
  | system (content : String)
  | user (content : String)
  | item (it : OutputItem) (hasTypeField : Bool)
  | function_call_output (call_id : Option String) (output : String) (isErrorField : Option Bool)
  deriving DecidableEq

/-- Entry appended for a model output item by `callModelResponsesApi`
(src/agent/agent.ts lines 88-95).  The source tests `item.id === "message"`
and, even in that branch, pushes the original `item` (the destructured copy
without `type` is computed but never used), so the pushed entry keeps its
`type` field in both branches. -/
def pushOutputItemAgent (it : OutputItem) : RMsg :=
  if it.id = some "message" then RMsg.item it true else RMsg.item it true

/-- Entry appended for a model output item by `callGptOssModel`
(src/unnamed/part_007 lines 229-236): items with `type === "message"` are
pushed with the `type` field removed, all others unchanged. -/
def pushOutputItemGptOss (it : OutputItem) : RMsg :=
  if it.itemType = "message" then RMsg.item it false else RMsg.item it true

/-- How a round loop run ends: normal completion (final text produced, or a
response without output causing `break`), the interruption throw after an
`interrupted` event, an abort of the in-flight network request, some other
network failure, or fuel exhaustion of the model (the embedded loop is run for
a given number of iterations; `fuelOut` means the source loop would still be
running). -/
inductive LoopExit where
  | finished
  | interruptedExit
  | netAbort
  | netThrow (msg : String)
  | fuelOut
  deriving DecidableEq

/-- State threaded through `callModelResponsesApi`: the transcript, the events
emitted so far, the `conversationDone` flag, the number of network calls made,
the abort-check tick counter, and the number of tool invocations made. -/
structure RespState where
  messages : List RMsg
  events : List AgentEvent
  done : Bool
  round : Nat
  tick : Nat
  calls : Nat
  deriving DecidableEq

/-- Abort schedule: the value of `signal.aborted` at the n-th check. -/
abbrev AbortSched := Nat → Bool

/-- Tool oracle: outcome of the n-th `executeTool` invocation, given the tool
name and raw argument string; `Except.error m` models a thrown error with
message `m` (including the "Interrupted" rethrow of a cancelled tool). -/
abbrev ToolOracle := Nat → String → String → Except String String

/-- Network script for the responses adapter: outcome of the n-th
`client.responses.create` call. -/
abbrev RespScript := Nat → NetOutcome RespResponse

/-- Schedule on which the cancellation token never fires. -/
def neverAbort : AbortSched := fun _ => false

/-- Emit one event in the responses adapter. -/
def emitR (st : RespState) (e : AgentEvent) : RespState :=
  { st with events := st.events ++ [e] }

/-- Token-usage reporting of the responses adapter (src/agent/agent.ts lines
72-83): emitted only when the response carries a usage block. -/
def emitRespUsage (st : RespState) (u : Option RespUsage) : RespState :=
  match u with
  | none => st
  | some usage =>
      emitR st (AgentEvent.token_usage (usage.input_tokens.getD 0) (usage.output_tokens.getD 0)
        (usage.total_tokens.getD 0) (usage.cached_tokens.getD 0) 0)

/-- Content loop of the `reasoning` case: a `thinking` event per
`reasoning_text` content element. -/
def respReasoningContents (st : RespState) : List RespContent → RespState
  | [] => st
  | RespContent.reasoning_text t :: rest =>
      respReasoningContents (emitR st (AgentEvent.thinking t)) rest
  | _ :: rest => respReasoningContents st rest

/-- Content loop of the `message` case: `assistant_message` for output text,
`error` for a refusal, and `conversationDone` set for every content element
(as in the source, where the assignment sits inside the content loop). -/
def respMessageContents (st : RespState) : List RespContent → RespState
  | [] => st
  | c :: rest =>
      let st1 := match c with
        | RespContent.output_text t => emitR st (AgentEvent.assistant_message t)
        | RespContent.refusal r => emitR st (AgentEvent.error ("Refusal: " ++ r))
        | _ => st
      respMessageContents { st1 with done := true } rest

/-- Body of the per-item loop of `callModelResponsesApi` (src/agent/agent.ts
lines 88-164): push the item, then dispatch on its `type`; the
`function_call` case first checks the abort signal (emitting `interrupted`
and throwing), then emits `tool_call`, runs the tool, and emits `tool_result`
in both the success and the catch branch. -/
def respProcessItem (sched : AbortSched) (tool : ToolOracle) (st : RespState) (it : OutputItem) :
    RespState × Option LoopExit :=
  let st := { st with messages := st.messages ++ [pushOutputItemAgent it] }
  if it.itemType = "reasoning" then
    (respReasoningContents st it.content, none)
  else if it.itemType = "message" then
    (respMessageContents st it.content, none)
  else if it.itemType = "function_call" then
    let aborted := sched st.tick
    let st := { st with tick := st.tick + 1 }
    if aborted then
      (emitR st AgentEvent.interrupted, some LoopExit.interruptedExit)
    else
      let tid := it.id.getD ""
      let st := emitR st (AgentEvent.tool_call tid it.name it.arguments)
      match tool st.calls it.name it.arguments with
      | Except.ok r =>
          let st := emitR st (AgentEvent.tool_result tid r false)
          ({ st with
              messages := st.messages ++ [RMsg.function_call_output it.id r none],
              calls := st.calls + 1 }, none)
      | Except.error m =>
          let st := emitR st (AgentEvent.tool_result tid m true)
          ({ st with
              messages := st.messages ++ [RMsg.function_call_output it.id m (some true)],
              calls := st.calls + 1 }, none)
  else
    (emitR st (AgentEvent.error ("Unknown output type in LLM response: " ++ it.itemType)), none)

/-- The per-item loop over one round's output, stopping early only on the
interruption throw. -/
def respProcessItems (sched : AbortSched) (tool : ToolOracle) :
    RespState → List OutputItem → RespState × Option LoopExit
  | st, [] => (st, none)
  | st, it :: rest =>
      match respProcessItem sched tool st it with
      | (st1, some ex) => (st1, some ex)
      | (st1, none) => respProcessItems sched tool st1 rest

/-- The round loop of `callModelResponsesApi` (src/agent/agent.ts lines
54-166): `while (!conversationDone)` with an abort check at the top, one
network call per iteration, usage reporting, `break` when the response has no
output, and the per-item loop.  The source loop has no round cap; the `fuel`
argument only bounds the depth to which the embedding unrolls it. -/
def respLoop (sched : AbortSched) (script : RespScript) (tool : ToolOracle) :
    Nat → RespState → RespState × LoopExit
  | 0, st => (st, LoopExit.fuelOut)
  | fuel + 1, st =>
      if st.done then (st, LoopExit.finished)
      else
        let aborted := sched st.tick
        let st := { st with tick := st.tick + 1 }
        if aborted then (emitR st AgentEvent.interrupted, LoopExit.interruptedExit)
        else
          match script st.round with
          | NetOutcome.abortErr => ({ st with round := st.round + 1 }, LoopExit.netAbort)
          | NetOutcome.throwErr m => ({ st with round := st.round + 1 }, LoopExit.netThrow m)
          | NetOutcome.ok resp =>
              let st := { st with round := st.round + 1 }
              let st := emitRespUsage st resp.usage
              match resp.output with
              | none => (st, LoopExit.finished)
              | some items =>
                  match respProcessItems sched tool st items with
                  | (st1, some ex) => (st1, ex)
                  | (st1, none) => respLoop sched script tool fuel st1

/-- `callModelResponsesApi` entry: emits `assistant_start` and runs the round
loop on the given transcript. -/
def callResponsesModel (sched : AbortSched) (script : RespScript) (tool : ToolOracle)
    (fuel : Nat) (messages : List RMsg) : RespState × LoopExit :=
  respLoop sched script tool fuel
    { messages := messages, events := [AgentEvent.assistant_start], done := false,
      round := 0, tick := 0, calls := 0 }

/-- How `Agent.chat` disposes of the adapter's outcome: normal return, the
catch swallowing an interruption (`e.message === "Interrupted"` or the signal
already aborted), or the error being rethrown to the caller. -/
inductive TurnOutcome where
  | completed
  | swallowed
  | raised (msg : String)
  | outOfFuel
  deriving DecidableEq

/-- Result of one `Agent.chat` turn: final engine state, the way the round
loop ended, and the disposition applied by the catch in `Agent.chat`. -/
structure TurnResult where
  final : RespState
  exit : LoopExit
  outcome : TurnOutcome
  deriving DecidableEq

/-- State at the start of a turn: `Agent.chat` emits `user_message`, appends
the user entry to the transcript, and the adapter then emits
`assistant_start`. -/
def respTurnInit (messages : List RMsg) (userText : String) : RespState :=
  { messages := messages ++ [RMsg.user userText],
    events := [AgentEvent.user_message userText, AgentEvent.assistant_start],
    done := false, round := 0, tick := 0, calls := 0 }

/-- `Agent.chat` for the responses flavor (src/agent/agent.ts lines 302-341):
emits `user_message`, appends the user entry, runs `callModelResponsesApi`,
and in the catch swallows the failure exactly when its message is
"Interrupted" or the signal is aborted (the abort of an in-flight request
surfaces as an `APIUserAbortError` whose message is not "Interrupted"). -/
def respTurn (sched : AbortSched) (script : RespScript) (tool : ToolOracle)
    (fuel : Nat) (messages : List RMsg) (userText : String) : TurnResult :=
  match respLoop sched script tool fuel (respTurnInit messages userText) with
  | (st, LoopExit.finished) => ⟨st, LoopExit.finished, TurnOutcome.completed⟩
  | (st, LoopExit.fuelOut) => ⟨st, LoopExit.fuelOut, TurnOutcome.outOfFuel⟩
  | (st, LoopExit.interruptedExit) => ⟨st, LoopExit.interruptedExit, TurnOutcome.swallowed⟩
  | (st, LoopExit.netAbort) =>
      if sched st.tick then ⟨st, LoopExit.netAbort, TurnOutcome.swallowed⟩
      else ⟨st, LoopExit.netAbort, TurnOutcome.raised "Request was aborted."⟩
  | (st, LoopExit.netThrow m) =>
      if m = "Interrupted" ∨ sched st.tick then ⟨st, LoopExit.netThrow m, TurnOutcome.swallowed⟩
      else ⟨st, LoopExit.netThrow m, TurnOutcome.raised m⟩

/-- A tool call of a chat-completions assistant message: its `id`, its `type`
discriminator, and the `function.name`/`function.arguments` respectively
`custom.name`/`custom.input` payloads. -/
structure ChatToolCall where
  id : String
  ctype : String
  fname : String
  farguments : String
  cname : String
  cinput : String
  deriving DecidableEq

/-- Name selected by `toolCall.type === "function" ? toolCall.function.name :
toolCall.custom.name`. -/
def tcName (tc : ChatToolCall) : String := if tc.ctype = "function" then tc.fname else tc.cname

/-- Argument string selected by `toolCall.type === "function" ?
toolCall.function.arguments : toolCall.custom.input`. -/
def tcArgs (tc : ChatToolCall) : String := if tc.ctype = "function" then tc.farguments else tc.cinput

/-- Transcript entries of the chat-completions flavor: system, user, the
assistant entry carrying tool calls (`content` possibly null), the
role-"tool" result entry keyed by `tool_call_id`, and the final assistant
entry. -/
inductive CMsg where
  | system (content : String)
  | user (content : String)
  | assistantCalls (content : Option String) (tool_calls : List ChatToolCall)
  | toolResultMsg (tool_call_id : String) (content : String)
  | assistantFinal (content : String)
  deriving DecidableEq

/-- Usage block of a chat-completions response. -/
structure ChatUsage where
  prompt_tokens : Option Nat
  completion_tokens : Option Nat
  total_tokens : Option Nat
  cached_tokens : Option Nat
  deriving DecidableEq

/-- The assistant message of `response.choices[0]`. -/
structure ChatMessage where
  content : Option String
  tool_calls : Option (List ChatToolCall)
  deriving DecidableEq

/-- A chat-completions response: optional usage and the assistant message. -/
structure ChatResponse where
  usage : Option ChatUsage
  message : ChatMessage
  deriving DecidableEq

/-- JavaScript truthiness of an optional string (`undefined` and `""` are
falsy). -/
def strTruthy : Option String → Bool
  | none => false
  | some s => !(s = "")

/-- `s || null`: the string when truthy, null otherwise. -/
def strOrNull (s : Option String) : Option String :=
  if strTruthy s then s else none

/-- State threaded through `callModelChatCompletionsApi`. -/
structure ChatState where
  messages : List CMsg
  events : List AgentEvent
  responded : Bool
  round : Nat
  tick : Nat
  calls : Nat
  deriving DecidableEq

/-- Emit one event in the chat adapter. -/
def emitC (st : ChatState) (e : AgentEvent) : ChatState :=
  { st with events := st.events ++ [e] }

/-- Token-usage reporting of the chat adapter (src/agent/agent.ts lines
199-210). -/
def emitChatUsage (st : ChatState) (u : Option ChatUsage) : ChatState :=
  match u with
  | none => st
  | some usage =>
      emitC st (AgentEvent.token_usage (usage.prompt_tokens.getD 0) (usage.completion_tokens.getD 0)
        (usage.total_tokens.getD 0) (usage.cached_tokens.getD 0) 0)

/-- The per-tool-call loop of the chat adapter (src/agent/agent.ts lines
222-253): abort check (emitting `interrupted` and throwing), `tool_call`
event, tool execution, `tool_result` event and a role-"tool" transcript entry
in both the success and the catch branch, in the order the calls were given. -/
def chatExecCalls (sched : AbortSched) (tool : ToolOracle) :
    ChatState → List ChatToolCall → ChatState × Option LoopExit
  | st, [] => (st, none)
  | st, tc :: rest =>
      let aborted := sched st.tick
      let st := { st with tick := st.tick + 1 }
      if aborted then (emitC st AgentEvent.interrupted, some LoopExit.interruptedExit)
      else
        let n := tcName tc
        let a := tcArgs tc
        let st := emitC st (AgentEvent.tool_call tc.id n a)
        match tool st.calls n a with
        | Except.ok r =>
            let st := emitC st (AgentEvent.tool_result tc.id r false)
            chatExecCalls sched tool
              { st with messages := st.messages ++ [CMsg.toolResultMsg tc.id r],
                        calls := st.calls + 1 } rest
        | Except.error m =>
            let st := emitC st (AgentEvent.tool_result tc.id m true)
            chatExecCalls sched tool
              { st with messages := st.messages ++ [CMsg.toolResultMsg tc.id m],
                        calls := st.calls + 1 } rest

/-- The `else if (message.content)` branch: final text produces the
`assistant_message` event, the final assistant entry, and ends the turn;
otherwise the round produced nothing and the loop just continues. -/
def chatProcessFinal (st : ChatState) (message : ChatMessage) : ChatState × Option LoopExit :=
  match message.content with
  | some c =>
      if c = "" then (st, none)
      else
        let st := emitC st (AgentEvent.assistant_message c)
        ({ st with messages := st.messages ++ [CMsg.assistantFinal c], responded := true }, none)
  | none => (st, none)

/-- Round body of the chat adapter after usage reporting: when the message
carries a non-empty tool-call list, push the assistant entry (content
`|| null`, all tool calls) and execute the calls in order; otherwise the
final-text branch. -/
def chatProcessMessage (sched : AbortSched) (tool : ToolOracle) (st : ChatState)
    (message : ChatMessage) : ChatState × Option LoopExit :=
  match message.tool_calls with
  | some tcs =>
      if tcs.length > 0 then
        let st := { st with
          messages := st.messages ++ [CMsg.assistantCalls (strOrNull message.content) tcs] }
        chatExecCalls sched tool st tcs
      else chatProcessFinal st message
  | none => chatProcessFinal st message

/-- Network script for the chat adapter. -/
abbrev ChatScript := Nat → NetOutcome ChatResponse

/-- The round loop of `callModelChatCompletionsApi` (src/agent/agent.ts lines
180-261): `while (!assistantResponded)`, abort check, network call, usage,
round body.  As with the responses loop, the source has no round cap and
`fuel` only bounds the unrolling. -/
def chatLoop (sched : AbortSched) (script : ChatScript) (tool : ToolOracle) :
    Nat → ChatState → ChatState × LoopExit
  | 0, st => (st, LoopExit.fuelOut)
  | fuel + 1, st =>
      if st.responded then (st, LoopExit.finished)
      else
        let aborted := sched st.tick
        let st := { st with tick := st.tick + 1 }
        if aborted then (emitC st AgentEvent.interrupted, LoopExit.interruptedExit)
        else
          match script st.round with
          | NetOutcome.abortErr => ({ st with round := st.round + 1 }, LoopExit.netAbort)
          | NetOutcome.throwErr m => ({ st with round := st.round + 1 }, LoopExit.netThrow m)
          | NetOutcome.ok resp =>
              let st := { st with round := st.round + 1 }
              let st := emitChatUsage st resp.usage
              match chatProcessMessage sched tool st resp.message with
              | (st1, some ex) => (st1, ex)
              | (st1, none) => chatLoop sched script tool fuel st1

/-- `callModelChatCompletionsApi` entry: emits `assistant_start` and runs the
round loop. -/
def callChatModel (sched : AbortSched) (script : ChatScript) (tool : ToolOracle)
    (fuel : Nat) (messages : List CMsg) : ChatState × LoopExit :=
  chatLoop sched script tool fuel
    { messages := messages, events := [AgentEvent.assistant_start], responded := false,
      round := 0, tick := 0, calls := 0 }

/-- Console displays of the legacy prompt path (src/unnamed/part_007): the
`display` utility calls made by `callGptOssModel`. -/
inductive DisplayEvent where
  | thinkingD (text : String)
  | toolD (name args : String)
  | toolResultD (result : String) (isError : Bool)
  | assistantLabelD
  | assistantMessageD (text : String)
  | errorD (text : String)
  deriving DecidableEq

/-- State of the legacy `callGptOssModel` loop (no abort signal there). -/
structure GState where
  messages : List RMsg
  displays : List DisplayEvent
  done : Bool
  round : Nat
  calls : Nat
  deriving DecidableEq

/-- Append one display. -/
def gptOssDisplay (st : GState) (d : DisplayEvent) : GState :=
  { st with displays := st.displays ++ [d] }

/-- Reasoning-content loop of the legacy path. -/
def gptOssReasoningContents (st : GState) : List RespContent → GState
  | [] => st
  | RespContent.reasoning_text t :: rest =>
      gptOssReasoningContents (gptOssDisplay st (DisplayEvent.thinkingD t)) rest
  | _ :: rest => gptOssReasoningContents st rest

/-- Message-content loop of the legacy path (sets `conversationDone` per
content element, like the engine). -/
def gptOssMessageContents (st : GState) : List RespContent → GState
  | [] => st
  | c :: rest =>
      let st1 := match c with
        | RespContent.output_text t => gptOssDisplay st (DisplayEvent.assistantMessageD t)
        | RespContent.refusal r => gptOssDisplay st (DisplayEvent.errorD ("Refusal: " ++ r))
        | _ => st
      gptOssMessageContents { st1 with done := true } rest

/-- Per-item body of `callGptOssModel` (src/unnamed/part_007 lines 229-275):
push the item (with the `type` field removed from message items), dispatch on
its type; a function call displays the tool, executes it via its
`executeToolCall` helper, and pushes a `function_call_output` keyed by the
item's `call_id`. -/
def gptOssProcessItem (tool : ToolOracle) (st : GState) (it : OutputItem) : GState :=
  let st := { st with messages := st.messages ++ [pushOutputItemGptOss it] }
  if it.itemType = "reasoning" then gptOssReasoningContents st it.content
  else if it.itemType = "message" then gptOssMessageContents st it.content
  else if it.itemType = "function_call" then
    let st := gptOssDisplay st (DisplayEvent.toolD it.name it.arguments)
    match tool st.calls it.name it.arguments with
    | Except.ok r =>
        let st := gptOssDisplay st (DisplayEvent.toolResultD r false)
        { st with messages := st.messages ++ [RMsg.function_call_output it.call_id r none],
                  calls := st.calls + 1 }
    | Except.error m =>
        let st := gptOssDisplay st (DisplayEvent.toolResultD m true)
        { st with messages := st.messages ++ [RMsg.function_call_output it.call_id m none],
                  calls := st.calls + 1 }
  else gptOssDisplay st (DisplayEvent.errorD ("Unknown output type in LLM response: " ++ it.itemType))

/-- The per-item loop of the legacy path. -/
def gptOssProcessItems (tool : ToolOracle) : GState → List OutputItem → GState
  | st, [] => st
  | st, it :: rest => gptOssProcessItems tool (gptOssProcessItem tool st it) rest

/-- Network script of the legacy path: output list of the n-th call (`none`
models a response without output, which makes the loop `break`). -/
abbrev GptOssScript := Nat → Option (List OutputItem)

/-- Round loop of `callGptOssModel`: `for (round = 0; round < maxRounds &&
!conversationDone; round++)`.  The first argument is the number of rounds
still allowed. -/
def gptOssLoop (script : GptOssScript) (tool : ToolOracle) : Nat → GState → GState
  | 0, st => st
  | fuel + 1, st =>
      if st.done then st
      else
        match script st.round with
        | none => { st with round := st.round + 1 }
        | some items =>
            gptOssLoop script tool fuel (gptOssProcessItems tool { st with round := st.round + 1 } items)

/-- `maxRounds` of `callGptOssModel` in src/unnamed/part_007 line 190. -/
def gptOssMaxRounds : Nat := 10

/-- `callGptOssModel` (src/unnamed/part_007 lines 185-281): assistant label,
the capped round loop, and the trailing `Max rounds reached without
completion` error display when the loop finished without the model producing
final text. -/
def callGptOssModelRun (script : GptOssScript) (tool : ToolOracle) (messages : List RMsg) : GState :=
  let st : GState := { messages := messages, displays := [DisplayEvent.assistantLabelD],
                       done := false, round := 0, calls := 0 }
  let st := gptOssLoop script tool gptOssMaxRounds st
  if st.done then st
  else gptOssDisplay st (DisplayEvent.errorD "Max rounds reached without completion")

/-- Parsed JSON arguments of a tool invocation (only the fields the tools in
src/unnamed/part_007 read). -/
structure ToolArgs where
  path : Option String
  command : Option String
  deriving DecidableEq

/-- Outcome of `executeTool`: an ordinary result string, or a thrown error. -/
inductive ExecOut where
  | ok (result : String)
  | thrown (msg : String)
  deriving DecidableEq

/-- Whether the outcome is a thrown failure (as opposed to an ordinary
result string). -/
def ExecOut.isThrown : ExecOut → Bool
  | ExecOut.ok _ => false
  | ExecOut.thrown _ => true

/-- `executeTool` of src/unnamed/part_007 lines 145-179.  The file system is
abstracted as `fs` (contents of an existing file by resolved path), `dirs`
(entries of an existing directory), `runCmd` (outcome of `execSync`) and
`resolvePath` (the `resolve` of node:path).  Note that the read and list
tools report a missing argument or a missing target by RETURNING an error
string; only `run_command` throws, wrapping the message. -/
def executeToolPrompt (fs : String → Option String) (dirs : String → Option (List String))
    (runCmd : String → Except String String) (resolvePath : String → String)
    (name : String) (args : ToolArgs) : ExecOut :=
  if name = "read_file" then
    if strTruthy args.path = false then ExecOut.ok "Error: path parameter is required"
    else
      let file := resolvePath (args.path.getD "")
      match fs file with
      | none => ExecOut.ok ("File not found: " ++ file)
      | some data => ExecOut.ok data
  else if name = "list_directory" then
    let p := if strTruthy args.path then args.path.getD "" else "."
    let dir := resolvePath p
    match dirs dir with
    | none => ExecOut.ok ("Directory not found: " ++ dir)
    | some entries => ExecOut.ok (String.intercalate "\n" entries)
  else if name = "run_command" then
    if strTruthy args.command = false then ExecOut.ok "Error: command parameter is required"
    else
      match runCmd (args.command.getD "") with
      | Except.ok output => ExecOut.ok (if output = "" then "Command executed successfully" else output)
      | Except.error m => ExecOut.thrown ("Command failed: " ++ m)
  else ExecOut.ok ("Unknown tool: " ++ name)

/-- `SessionConfig` of src/commands/session-manager.ts (the `apiKey` field is
optional there). -/
structure SessionConfig where
  model : String
  baseURL : String
  isGptOss : Bool
  apiKey : Option String
  systemPrompt : Option String
  deriving DecidableEq

/-- The record object built by `SessionManager.logSession` (lines 112-127)
before serialization: type tag, session id, timestamp, cwd, and a config
object holding only model, baseURL, isGptOss and systemPrompt. -/
structure SessionLogRecord where
  rtype : String
  id : String
  timestamp : String
  cwd : String
  configModel : String
  configBaseURL : String
  configIsGptOss : Bool
  configSystemPrompt : Option String
  deriving DecidableEq

/-- `logSession`: the entry copies only model, baseURL, isGptOss and
systemPrompt from the config (the source comment reads "Don't log API key"). -/
def logSessionRecord (sessionId timestamp cwd : String) (config : SessionConfig) :
    SessionLogRecord :=
  { rtype := "session", id := sessionId, timestamp := timestamp, cwd := cwd,
    configModel := config.model, configBaseURL := config.baseURL,
    configIsGptOss := config.isGptOss, configSystemPrompt := config.systemPrompt }

/-- Quote a string as a JSON literal (escaping not modelled). -/
def jsonStr (s : String) : String := "\"" ++ s ++ "\""

/-- The `systemPrompt` field of the serialized config object:
`JSON.stringify` omits the key entirely when the value is undefined. -/
def sysPromptField : Option String → String
  | none => ""
  | some sp => ",\"systemPrompt\":" ++ jsonStr sp

/-- `JSON.stringify` of a session record, in the source's key order. -/
def serializeSessionRecord (r : SessionLogRecord) : String :=
  "\x7b\"type\":" ++ jsonStr r.rtype ++ ",\"id\":" ++ jsonStr r.id ++
  ",\"timestamp\":" ++ jsonStr r.timestamp ++ ",\"cwd\":" ++ jsonStr r.cwd ++
  ",\"config\":\x7b\"model\":" ++ jsonStr r.configModel ++
  ",\"baseURL\":" ++ jsonStr r.configBaseURL ++
  ",\"isGptOss\":" ++ (if r.configIsGptOss then "true" else "false") ++
  sysPromptField r.configSystemPrompt ++ "\x7d\x7d"

/-- The line appended to the session file by `logSession`
(`JSON.stringify(entry) + "\n"`). -/
def logSessionLine (sessionId timestamp cwd : String) (config : SessionConfig) : String :=
  serializeSessionRecord (logSessionRecord sessionId timestamp cwd config) ++ "\n"

/-- Transcript entries rebuilt by `Agent.setEvents` for the responses flavor
(src/agent/agent.ts lines 351-404). -/
inductive RespReplayEntry where
  | system (text : String)
  | user (text : String)
  | reasoning (text : String)
  | function_call (id name arguments : String)
  | function_call_output (call_id output : String)
  | message (text : String)
  deriving DecidableEq

/-- The entry a single replayed event contributes in the responses flavor
(events of other types contribute nothing; a `tool_result`'s `isError` flag
is not replayed). -/
def respReplayEntry : AgentEvent → Option RespReplayEntry
  | AgentEvent.user_message t => some (RespReplayEntry.user t)
  | AgentEvent.thinking t => some (RespReplayEntry.reasoning t)
  | AgentEvent.tool_call id n a => some (RespReplayEntry.function_call id n a)
  | AgentEvent.tool_result id r _ => some (RespReplayEntry.function_call_output id r)
  | AgentEvent.assistant_message t => some (RespReplayEntry.message t)
  | _ => none

/-- `Agent.setEvents`, responses flavor: a system entry when the configured
system prompt is truthy, then one entry per replayed event. -/
def respSetEvents (systemPrompt : String) (events : List AgentEvent) : List RespReplayEntry :=
  (if systemPrompt = "" then [] else [RespReplayEntry.system systemPrompt]) ++
    events.filterMap respReplayEntry

/-- `Agent.setEvents` starting from an agent that already holds a transcript:
the source begins with `this.messages = []`, so the previous transcript is
discarded. -/
def respSetEventsFrom (previousMessages : List RespReplayEntry) (systemPrompt : String)
    (events : List AgentEvent) : List RespReplayEntry :=
  respSetEvents systemPrompt events

/-- Tool-call object rebuilt by the chat-flavor replay
(`{id, type: "function", function: {name, arguments}}`). -/
def replayToolCall (id n a : String) : ChatToolCall :=
  { id := id, ctype := "function", fname := n, farguments := a, cname := "", cinput := "" }

/-- Accumulator of the chat-flavor replay: rebuilt entries plus the pending
tool calls not yet flushed into an assistant entry. -/
structure ChatReplayState where
  msgs : List CMsg
  pending : List ChatToolCall
  deriving DecidableEq

/-- One step of the chat-flavor replay loop (src/agent/agent.ts lines
414-462): `assistant_start` resets the pending calls, `tool_call`
accumulates, the first `tool_result` flushes the assistant entry with all
pending calls then appends the result entry, `assistant_message` appends the
final entry, and every other event type is skipped. -/
def chatReplayStep (s : ChatReplayState) : AgentEvent → ChatReplayState
  | AgentEvent.user_message t => { s with msgs := s.msgs ++ [CMsg.user t] }
  | AgentEvent.assistant_start => { s with pending := [] }
  | AgentEvent.tool_call id n a => { s with pending := s.pending ++ [replayToolCall id n a] }
  | AgentEvent.tool_result id r _ =>
      let s1 := if s.pending.length > 0 then
          { msgs := s.msgs ++ [CMsg.assistantCalls none s.pending], pending := ([] : List ChatToolCall) }
        else s
      { s1 with msgs := s1.msgs ++ [CMsg.toolResultMsg id r] }
  | AgentEvent.assistant_message t => { s with msgs := s.msgs ++ [CMsg.assistantFinal t] }
  | _ => s

/-- `Agent.setEvents`, chat flavor. -/
def chatSetEvents (systemPrompt : String) (events : List AgentEvent) : List CMsg :=
  (events.foldl chatReplayStep
    { msgs := if systemPrompt = "" then [] else [CMsg.system systemPrompt],
      pending := [] }).msgs

/-- Chat-flavor `setEvents` from an agent already holding a transcript (the
source discards it via `this.messages = []`). -/
def chatSetEventsFrom (previousMessages : List CMsg) (systemPrompt : String)
    (events : List AgentEvent) : List CMsg :=
  chatSetEvents systemPrompt events

/-- Event classifiers and counters used by the claims. -/
def isToolCallEv : AgentEvent → Bool
  | AgentEvent.tool_call _ _ _ => true
  | _ => false

/-- Whether the event is a `tool_result`. -/
def isToolResultEv : AgentEvent → Bool
  | AgentEvent.tool_result _ _ _ => true
  | _ => false

/-- The id carried by a `tool_call` event. -/
def evCallId : AgentEvent → Option String
  | AgentEvent.tool_call id _ _ => some id
  | _ => none

/-- Ids of all `tool_call` events of a trace, in order. -/
def callIdsOf (l : List AgentEvent) : List String := l.filterMap evCallId

/-- Whether the event is a `tool_result` carrying the given id. -/
def isResultWith (id : String) : AgentEvent → Bool
  | AgentEvent.tool_result i _ _ => i == id
  | _ => false

/-- Number of `tool_result` events with the given id in a trace. -/
def countResults (id : String) (l : List AgentEvent) : Nat := (l.filter (isResultWith id)).length

/-- Whether the event is `interrupted`. -/
def isInterruptedEv : AgentEvent → Bool
  | AgentEvent.interrupted => true
  | _ => false

/-- Whether the event is an `error`. -/
def isErrorEv : AgentEvent → Bool
  | AgentEvent.error _ => true
  | _ => false

/-- Number of `interrupted` events in a trace. -/
def countInterrupted (l : List AgentEvent) : Nat := (l.filter isInterruptedEv).length

/-- Number of `error` events in a trace. -/
def countErrors (l : List AgentEvent) : Nat := (l.filter isErrorEv).length

/-- A chunk is either a single non-tool event or an adjacent
`tool_call`/`tool_result` pair carrying the same id. -/
def isChunk : List AgentEvent → Bool
  | [e] => !(isToolCallEv e || isToolResultEv e)
  | [AgentEvent.tool_call id _ _, AgentEvent.tool_result id2 _ _] => id == id2
  | _ => false

/-- A trace is chunked when it is a concatenation of chunks: tool events
occur only as adjacent matched call/result pairs. -/
def Chunked (tr : List AgentEvent) : Prop :=
  ∃ cs : List (List AgentEvent), (∀ c ∈ cs, isChunk c = true) ∧ tr = cs.flatten

/-- Whether the content element is a refusal. -/
def isRefusalContent : RespContent → Bool
  | RespContent.refusal _ => true
  | _ => false

/-- A well-formed output item: one of the three known types, with no refusal
content in a message item (refusals and unknown item types are the only
sources of `error` events inside the responses round loop). -/
def wfItem (it : OutputItem) : Bool :=
  (it.itemType == "reasoning") ||
  (it.itemType == "message" && it.content.all (fun c => !isRefusalContent c)) ||
  (it.itemType == "function_call")

/-- A response script is well formed when every item of every response is. -/
def wfResp : NetOutcome RespResponse → Bool
  | NetOutcome.ok r => (r.output.getD []).all wfItem
  | _ => true

/-- Well-formedness of a responses network script. -/
def WfScript (script : RespScript) : Prop := ∀ n, wfResp (script n) = true

/-- The `tool_result` event produced for a tool outcome. -/
def toolResultEvent (tid : String) : Except String String → AgentEvent
  | Except.ok r => AgentEvent.tool_result tid r false
  | Except.error m => AgentEvent.tool_result tid m true

/-- Result string fed back for a tool outcome (`result` or `e.message`). -/
def resultString : Except String String → String
  | Except.ok r => r
  | Except.error m => m

/-- Whether the tool outcome was a failure. -/
def resultIsError : Except String String → Bool
  | Except.ok _ => false
  | Except.error _ => true

/-- Role-"tool" transcript entries produced for a list of chat tool calls,
keyed by call id, in call order (`k` is the index of the next tool
invocation, fed to the oracle). -/
def chatToolMsgs (tool : ToolOracle) : Nat → List ChatToolCall → List CMsg
  | _, [] => []
  | k, tc :: rest =>
      CMsg.toolResultMsg tc.id (resultString (tool k (tcName tc) (tcArgs tc))) ::
        chatToolMsgs tool (k + 1) rest

/-- Event pairs produced for a list of chat tool calls, in call order. -/
def chatToolEvents (tool : ToolOracle) : Nat → List ChatToolCall → List AgentEvent
  | _, [] => []
  | k, tc :: rest =>
      AgentEvent.tool_call tc.id (tcName tc) (tcArgs tc) ::
      AgentEvent.tool_result tc.id (resultString (tool k (tcName tc) (tcArgs tc)))
        (resultIsError (tool k (tcName tc) (tcArgs tc))) ::
      chatToolEvents tool (k + 1) rest

/-- A reasoning output item with a single reasoning text. -/
def mkReasoningItem (t : String) : OutputItem :=
  { itemType := "reasoning", id := none, name := "", arguments := "", call_id := none,
    content := [RespContent.reasoning_text t] }

/-- A function-call output item. -/
def mkFunctionCallItem (jd : Option String) (n a : String) (cid : Option String) : OutputItem :=
  { itemType := "function_call", id := jd, name := n, arguments := a, call_id := cid, content := [] }

/-- A concrete function-call item used in witnesses and counterexamples. -/
def fcItem : OutputItem := mkFunctionCallItem (some "call_1") "read" "\x7b\x7d" (some "call_1")

/-- A model that keeps returning one tool call and never produces final
text. -/
def toolOnlyScript : RespScript :=
  fun _ => NetOutcome.ok { usage := none, output := some [fcItem] }

/-- A tool oracle that always succeeds with "ok". -/
def okTool : ToolOracle := fun _ _ _ => Except.ok "ok"

/-- Schedule on which the token fires between the first and the second abort
check. -/
def fireAfterFirstCheck : AbortSched := fun k => decide (1 ≤ k)

/-- A network script whose first request is aborted in flight. -/
def abortingScript : RespScript := fun _ => NetOutcome.abortErr

/-- A message-type output item used for the C1 evaluation. -/
def msgItemC1 : OutputItem :=
  { itemType := "message", id := some "msg_1", name := "", arguments := "", call_id := none,
    content := [RespContent.output_text "hi"] }

/-- A concrete chat tool call used in witnesses. -/
def tcW : ChatToolCall :=
  { id := "tc_1", ctype := "function", fname := "read", farguments := "\x7b\x7d",
    cname := "", cinput := "" }

/-- A second concrete chat tool call used in witnesses. -/
def tcW2 : ChatToolCall :=
  { id := "tc_2", ctype := "function", fname := "list", farguments := "\x7b\x7d",
    cname := "", cinput := "" }

/-- A chat script whose single round requests one tool call. -/
def chatOneCallScript : ChatScript :=
  fun _ => NetOutcome.ok { usage := none, message := { content := none, tool_calls := some [tcW] } }

/-- A fresh chat-adapter state used in witnesses. -/
def chatW0 : ChatState :=
  { messages := [], events := [], responded := false, round := 0, tick := 0, calls := 0 }

/-- A legacy-path script that keeps returning one tool call. -/
def gptOssToolOnlyScript : GptOssScript := fun _ => some [fcItem]

/-! Helper lemmas about counters and chunked traces. -/

theorem countResults_append (id : String) (xs ys : List AgentEvent) :
    countResults id (xs ++ ys) = countResults id xs + countResults id ys := by
  simp [countResults, List.filter_append]

theorem countInterrupted_append (xs ys : List AgentEvent) :
    countInterrupted (xs ++ ys) = countInterrupted xs + countInterrupted ys := by
  simp [countInterrupted, List.filter_append]

theorem countErrors_append (xs ys : List AgentEvent) :
    countErrors (xs ++ ys) = countErrors xs + countErrors ys := by
  simp [countErrors, List.filter_append]

theorem callIdsOf_append (xs ys : List AgentEvent) :
    callIdsOf (xs ++ ys) = callIdsOf xs ++ callIdsOf ys := by
  simp [callIdsOf]

theorem evCallId_of_not_call {e : AgentEvent} (h : isToolCallEv e = false) : evCallId e = none := by
  cases e <;> simp_all [isToolCallEv, evCallId]

theorem chunked_nil : Chunked [] := ⟨[], by simp, rfl⟩

theorem chunked_append {xs ys : List AgentEvent} (hx : Chunked xs) (hy : Chunked ys) :
    Chunked (xs ++ ys) := by
  obtain ⟨cs1, h1, rfl⟩ := hx
  obtain ⟨cs2, h2, rfl⟩ := hy
  refine ⟨cs1 ++ cs2, ?_, by simp⟩
  intro c hc
  rcases List.mem_append.mp hc with h | h
  · exact h1 c h
  · exact h2 c h

theorem chunked_single {e : AgentEvent} (h : isChunk [e] = true) : Chunked [e] :=
  ⟨[[e]], by simpa using h, by simp⟩

theorem chunked_pair (id n a r : String) (b : Bool) :
    Chunked [AgentEvent.tool_call id n a, AgentEvent.tool_result id r b] :=
  ⟨[[AgentEvent.tool_call id n a, AgentEvent.tool_result id r b]], by simp [isChunk], by simp⟩

theorem isChunk_cases {c : List AgentEvent} (h : isChunk c = true) :
    (∃ e, c = [e] ∧ isToolCallEv e = false ∧ isToolResultEv e = false) ∨
    (∃ id n a r b, c = [AgentEvent.tool_call id n a, AgentEvent.tool_result id r b]) := by
  rcases c with _ | ⟨e1, _ | ⟨e2, _ | ⟨e3, rest⟩⟩⟩
  · simp [isChunk] at h
  · refine Or.inl ⟨e1, rfl, ?_, ?_⟩
    · simp [isChunk] at h; exact h.1
    · simp [isChunk] at h; exact h.2
  · cases e1 <;> cases e2 <;> simp [isChunk] at h
    subst h
    exact Or.inr ⟨_, _, _, _, _, rfl⟩
  · cases e1 <;> cases e2 <;> simp [isChunk] at h

theorem countResults_single_not_result {id : String} {e : AgentEvent}
    (h : isToolResultEv e = false) : countResults id [e] = 0 := by
  cases e <;> simp_all [countResults, isResultWith, isToolResultEv]

theorem chunked_no_call_no_result (id : String) :
    ∀ cs : List (List AgentEvent), (∀ c ∈ cs, isChunk c = true) →
      id ∉ callIdsOf cs.flatten → countResults id cs.flatten = 0 := by
  intro cs
  induction cs with
  | nil => intro _ _; simp [countResults]
  | cons c rest ih =>
    intro hc hid
    have hcc := hc c (List.mem_cons_self _ _)
    have hcrest : ∀ c' ∈ rest, isChunk c' = true := fun c' h' => hc c' (List.mem_cons_of_mem _ h')
    rw [List.flatten_cons] at hid ⊢
    rw [countResults_append]
    rw [callIdsOf_append] at hid
    rcases isChunk_cases hcc with ⟨e, rfl, he1, he2⟩ | ⟨id', n, a, r, b, rfl⟩
    · rw [countResults_single_not_result he2]
      have : callIdsOf [e] = [] := by simp [callIdsOf, evCallId_of_not_call he1]
      rw [this] at hid
      simpa using ih hcrest (by simpa using hid)
    · have hids : callIdsOf [AgentEvent.tool_call id' n a, AgentEvent.tool_result id' r b] = [id'] := by
        simp [callIdsOf, evCallId]
      rw [hids] at hid
      have hne : id ≠ id' := by
        intro hiq; exact hid (by simp [hiq])
      have h0 : countResults id [AgentEvent.tool_call id' n a, AgentEvent.tool_result id' r b] = 0 := by
        simp [countResults, isResultWith, isToolCallEv]
        intro hq
        exact absurd hq.symm hne
      rw [h0]
      have hid' : id ∉ callIdsOf rest.flatten := by
        intro hq; exact hid (by simp [hq])
      simpa using ih hcrest hid'

theorem chunk_exact (id : String) :
    ∀ cs : List (List AgentEvent), (∀ c ∈ cs, isChunk c = true) →
      (callIdsOf cs.flatten).Nodup →
      ∀ pre n a post, cs.flatten = pre ++ AgentEvent.tool_call id n a :: post →
        countResults id post = 1 := by
  intro cs
  induction cs with
  | nil =>
    intro _ _ pre n a post heq
    exact absurd heq.symm (by simp)
  | cons c rest ih =>
    intro hc hnd pre n a post heq
    have hcc := hc c (List.mem_cons_self _ _)
    have hcrest : ∀ c' ∈ rest, isChunk c' = true := fun c' h' => hc c' (List.mem_cons_of_mem _ h')
    rw [List.flatten_cons] at heq hnd
    rw [callIdsOf_append] at hnd
    rcases isChunk_cases hcc with ⟨e, rfl, he1, he2⟩ | ⟨id', n', a', r, b, rfl⟩
    · have hids : callIdsOf [e] = [] := by simp [callIdsOf, evCallId_of_not_call he1]
      rw [hids, List.nil_append] at hnd
      cases pre with
      | nil =>
        simp at heq
        obtain ⟨heq1, -⟩ := heq
        rw [heq1] at he1
        simp [isToolCallEv] at he1
      | cons p pre' =>
        simp at heq
        exact ih hcrest hnd pre' n a post heq.2
    · have hids : callIdsOf [AgentEvent.tool_call id' n' a', AgentEvent.tool_result id' r b] = [id'] := by
        simp [callIdsOf, evCallId]
      rw [hids] at hnd
      cases pre with
      | nil =>
        simp at heq
        obtain ⟨⟨hid, hn, ha⟩, hpost⟩ := heq
        rw [← hpost]
        have hsplit : AgentEvent.tool_result id' r b :: rest.flatten =
            [AgentEvent.tool_result id' r b] ++ rest.flatten := rfl
        rw [hsplit, countResults_append]
        have h1 : countResults id [AgentEvent.tool_result id' r b] = 1 := by
          simp [countResults, isResultWith, hid]
        rw [h1]
        have hnotin : id ∉ callIdsOf rest.flatten := by
          rw [← hid]
          have := (List.nodup_cons.mp (by simpa using hnd)).1
          simpa using this
        rw [chunked_no_call_no_result id rest hcrest hnotin]
      | cons p pre' =>
        cases pre' with
        | nil =>
          simp at heq
        | cons q pre'' =>
          simp at heq
          obtain ⟨-, -, hrest⟩ := heq
          have hnd' : (callIdsOf rest.flatten).Nodup :=
            (List.nodup_cons.mp (by simpa using hnd)).2
          exact ih hcrest hnd' pre'' n a post hrest

/-! Trace-shape lemmas: every step of either adapter appends a chunked block
of events, so full traces are chunked. -/

theorem respReasoningContents_delta (cs : List RespContent) :
    ∀ st : RespState, ∃ d, (respReasoningContents st cs).events = st.events ++ d ∧ Chunked d := by
  induction cs with
  | nil => intro st; exact ⟨[], by simp [respReasoningContents], chunked_nil⟩
  | cons c rest ih =>
    intro st
    cases c with
    | reasoning_text t =>
      obtain ⟨d, hd, hcd⟩ := ih (emitR st (AgentEvent.thinking t))
      refine ⟨AgentEvent.thinking t :: d, ?_, chunked_append (chunked_single (by simp [isChunk, isToolCallEv, isToolResultEv])) hcd⟩
      rw [show respReasoningContents st (RespContent.reasoning_text t :: rest) =
        respReasoningContents (emitR st (AgentEvent.thinking t)) rest from rfl, hd]
      simp [emitR]
    | output_text t =>
      obtain ⟨d, hd, hcd⟩ := ih st
      exact ⟨d, by simp only [respReasoningContents]; exact hd, hcd⟩
    | refusal r =>
      obtain ⟨d, hd, hcd⟩ := ih st
      exact ⟨d, by simp only [respReasoningContents]; exact hd, hcd⟩
    | otherContent ct =>
      obtain ⟨d, hd, hcd⟩ := ih st
      exact ⟨d, by simp only [respReasoningContents]; exact hd, hcd⟩

theorem respMessageContents_delta (cs : List RespContent) :
    ∀ st : RespState, ∃ d, (respMessageContents st cs).events = st.events ++ d ∧ Chunked d := by
  induction cs with
  | nil => intro st; exact ⟨[], by simp [respMessageContents], chunked_nil⟩
  | cons c rest ih =>
    intro st
    cases c with
    | reasoning_text t =>
      obtain ⟨d, hd, hcd⟩ := ih { st with done := true }
      exact ⟨d, by rw [show respMessageContents st (RespContent.reasoning_text t :: rest) =
        respMessageContents { st with done := true } rest from rfl, hd], hcd⟩
    | output_text t =>
      obtain ⟨d, hd, hcd⟩ := ih { emitR st (AgentEvent.assistant_message t) with done := true }
      refine ⟨AgentEvent.assistant_message t :: d, ?_,
        chunked_append (chunked_single (by simp [isChunk, isToolCallEv, isToolResultEv])) hcd⟩
      rw [show respMessageContents st (RespContent.output_text t :: rest) =
        respMessageContents { emitR st (AgentEvent.assistant_message t) with done := true } rest from rfl, hd]
      simp [emitR]
    | refusal r =>
      obtain ⟨d, hd, hcd⟩ := ih { emitR st (AgentEvent.error ("Refusal: " ++ r)) with done := true }
      refine ⟨AgentEvent.error ("Refusal: " ++ r) :: d, ?_,
        chunked_append (chunked_single (by simp [isChunk, isToolCallEv, isToolResultEv])) hcd⟩
      rw [show respMessageContents st (RespContent.refusal r :: rest) =
        respMessageContents { emitR st (AgentEvent.error ("Refusal: " ++ r)) with done := true } rest from rfl, hd]
      simp [emitR]
    | otherContent ct =>
      obtain ⟨d, hd, hcd⟩ := ih { st with done := true }
      exact ⟨d, by rw [show respMessageContents st (RespContent.otherContent ct :: rest) =
        respMessageContents { st with done := true } rest from rfl, hd], hcd⟩

theorem respProcessItem_delta (sched : AbortSched) (tool : ToolOracle) (st : RespState)
    (it : OutputItem) :
    ∃ d, (respProcessItem sched tool st it).1.events = st.events ++ d ∧ Chunked d := by
  unfold respProcessItem
  by_cases h1 : it.itemType = "reasoning"
  · simp only [h1, if_true]
    exact respReasoningContents_delta it.content _
  · by_cases h2 : it.itemType = "message"
    · simp only [h1, h2, if_false, if_true]
      exact respMessageContents_delta it.content _
    · by_cases h3 : it.itemType = "function_call"
      · simp only [h1, h2, h3, if_false, if_true]
        by_cases ha : sched st.tick
        · refine ⟨[AgentEvent.interrupted], ?_, chunked_single (by simp [isChunk, isToolCallEv, isToolResultEv])⟩
          simp [ha, emitR]
        · simp only [ha, Bool.false_eq_true, if_false]
          cases htool : tool st.calls it.name it.arguments with
          | ok r =>
            refine ⟨[AgentEvent.tool_call (it.id.getD "") it.name it.arguments,
                     AgentEvent.tool_result (it.id.getD "") r false], ?_, chunked_pair _ _ _ _ _⟩
            simp [htool, emitR]
          | error m =>
            refine ⟨[AgentEvent.tool_call (it.id.getD "") it.name it.arguments,
                     AgentEvent.tool_result (it.id.getD "") m true], ?_, chunked_pair _ _ _ _ _⟩
            simp [htool, emitR]
      · simp only [h1, h2, h3, if_false]
        refine ⟨[AgentEvent.error ("Unknown output type in LLM response: " ++ it.itemType)], ?_,
          chunked_single (by simp [isChunk, isToolCallEv, isToolResultEv])⟩
        simp [emitR]

theorem respProcessItems_delta (sched : AbortSched) (tool : ToolOracle) (its : List OutputItem) :
    ∀ st : RespState, ∃ d, (respProcessItems sched tool st its).1.events = st.events ++ d ∧ Chunked d := by
  induction its with
  | nil => intro st; exact ⟨[], by simp [respProcessItems], chunked_nil⟩
  | cons it rest ih =>
    intro st
    obtain ⟨d1, hd1, hc1⟩ := respProcessItem_delta sched tool st it
    cases hres : respProcessItem sched tool st it with
    | mk st1 oex =>
      rw [hres] at hd1
      cases oex with
      | some ex =>
        refine ⟨d1, ?_, hc1⟩
        simp [respProcessItems, hres]
        exact hd1
      | none =>
        obtain ⟨d2, hd2, hc2⟩ := ih st1
        refine ⟨d1 ++ d2, ?_, chunked_append hc1 hc2⟩
        have : respProcessItems sched tool st (it :: rest) = respProcessItems sched tool st1 rest := by
          simp [respProcessItems, hres]
        rw [this, hd2, hd1, List.append_assoc]

theorem emitRespUsage_delta (st : RespState) (u : Option RespUsage) :
    ∃ d, (emitRespUsage st u).events = st.events ++ d ∧ Chunked d := by
  cases u with
  | none => exact ⟨[], by simp [emitRespUsage], chunked_nil⟩
  | some usage =>
    refine ⟨[AgentEvent.token_usage (usage.input_tokens.getD 0) (usage.output_tokens.getD 0)
      (usage.total_tokens.getD 0) (usage.cached_tokens.getD 0) 0], ?_,
      chunked_single (by simp [isChunk, isToolCallEv, isToolResultEv])⟩
    simp [emitRespUsage, emitR]

theorem respLoop_delta (sched : AbortSched) (script : RespScript) (tool : ToolOracle) :
    ∀ (fuel : Nat) (st : RespState),
      ∃ d, (respLoop sched script tool fuel st).1.events = st.events ++ d ∧ Chunked d := by
  intro fuel
  induction fuel with
  | zero => intro st; exact ⟨[], by simp [respLoop], chunked_nil⟩
  | succ n ih =>
    intro st
    by_cases hdone : st.done
    · exact ⟨[], by simp [respLoop, hdone], chunked_nil⟩
    · replace hdone : st.done = false := by simpa using hdone
      by_cases ha : sched st.tick
      · refine ⟨[AgentEvent.interrupted], ?_, chunked_single (by simp [isChunk, isToolCallEv, isToolResultEv])⟩
        simp [respLoop, hdone, ha, emitR]
      · replace ha : sched st.tick = false := by simpa using ha
        cases hscr : script st.round with
        | abortErr => exact ⟨[], by simp [respLoop, hdone, ha, hscr], chunked_nil⟩
        | throwErr m => exact ⟨[], by simp [respLoop, hdone, ha, hscr], chunked_nil⟩
        | ok resp =>
          obtain ⟨d1, hd1, hc1⟩ := emitRespUsage_delta
            { st with done := false, round := st.round + 1, tick := st.tick + 1 } resp.usage
          cases hout : resp.output with
          | none =>
            refine ⟨d1, ?_, hc1⟩
            simp [respLoop, hdone, ha, hscr, hout]
            simpa using hd1
          | some items =>
            obtain ⟨d2, hd2, hc2⟩ := respProcessItems_delta sched tool items
              (emitRespUsage { st with done := false, round := st.round + 1, tick := st.tick + 1 } resp.usage)
            cases hitems : respProcessItems sched tool
              (emitRespUsage { st with done := false, round := st.round + 1, tick := st.tick + 1 } resp.usage) items with
            | mk st1 oex =>
              rw [hitems] at hd2
              simp only [] at hd2
              cases oex with
              | some ex =>
                refine ⟨d1 ++ d2, ?_, chunked_append hc1 hc2⟩
                simp [respLoop, hdone, ha, hscr, hout, hitems]
                rw [hd2, hd1, List.append_assoc]
              | none =>
                obtain ⟨d3, hd3, hc3⟩ := ih st1
                refine ⟨d1 ++ (d2 ++ d3), ?_, chunked_append hc1 (chunked_append hc2 hc3)⟩
                have heq : (respLoop sched script tool (n + 1) st).1 = (respLoop sched script tool n st1).1 := by
                  simp [respLoop, hdone, ha, hscr, hout, hitems]
                rw [heq, hd3, hd2, hd1]
                simp [List.append_assoc]

theorem callResponsesModel_chunked (sched : AbortSched) (script : RespScript) (tool : ToolOracle)
    (fuel : Nat) (messages : List RMsg) :
    Chunked (callResponsesModel sched script tool fuel messages).1.events := by
  obtain ⟨d, hd, hc⟩ := respLoop_delta sched script tool fuel
    { messages := messages, events := [AgentEvent.assistant_start], done := false,
      round := 0, tick := 0, calls := 0 }
  rw [callResponsesModel, hd]
  exact chunked_append (chunked_single (by simp [isChunk, isToolCallEv, isToolResultEv])) hc

theorem chatExecCalls_delta (sched : AbortSched) (tool : ToolOracle) (tcs : List ChatToolCall) :
    ∀ st : ChatState, ∃ d, (chatExecCalls sched tool st tcs).1.events = st.events ++ d ∧ Chunked d := by
  induction tcs with
  | nil => intro st; exact ⟨[], by simp [chatExecCalls], chunked_nil⟩
  | cons tc rest ih =>
    intro st
    by_cases ha : sched st.tick
    · refine ⟨[AgentEvent.interrupted], ?_, chunked_single (by simp [isChunk, isToolCallEv, isToolResultEv])⟩
      simp [chatExecCalls, ha, emitC]
    · replace ha : sched st.tick = false := by simpa using ha
      cases htool : tool st.calls (tcName tc) (tcArgs tc) with
      | ok r =>
        obtain ⟨d, hd, hcd⟩ := ih
          { emitC (emitC { st with tick := st.tick + 1 } (AgentEvent.tool_call tc.id (tcName tc) (tcArgs tc)))
              (AgentEvent.tool_result tc.id r false) with
            messages := (emitC (emitC { st with tick := st.tick + 1 } (AgentEvent.tool_call tc.id (tcName tc) (tcArgs tc)))
              (AgentEvent.tool_result tc.id r false)).messages ++ [CMsg.toolResultMsg tc.id r],
            calls := st.calls + 1 }
        refine ⟨AgentEvent.tool_call tc.id (tcName tc) (tcArgs tc) ::
                AgentEvent.tool_result tc.id r false :: d, ?_,
          chunked_append (chunked_pair _ _ _ _ _) hcd⟩
        have heq : chatExecCalls sched tool st (tc :: rest) =
            chatExecCalls sched tool
              { emitC (emitC { st with tick := st.tick + 1 } (AgentEvent.tool_call tc.id (tcName tc) (tcArgs tc)))
                  (AgentEvent.tool_result tc.id r false) with
                messages := (emitC (emitC { st with tick := st.tick + 1 } (AgentEvent.tool_call tc.id (tcName tc) (tcArgs tc)))
                  (AgentEvent.tool_result tc.id r false)).messages ++ [CMsg.toolResultMsg tc.id r],
                calls := st.calls + 1 } rest := by
          simp [chatExecCalls, ha, htool, emitC]
        rw [heq, hd]
        simp [emitC]
      | error m =>
        obtain ⟨d, hd, hcd⟩ := ih
          { emitC (emitC { st with tick := st.tick + 1 } (AgentEvent.tool_call tc.id (tcName tc) (tcArgs tc)))
              (AgentEvent.tool_result tc.id m true) with
            messages := (emitC (emitC { st with tick := st.tick + 1 } (AgentEvent.tool_call tc.id (tcName tc) (tcArgs tc)))
              (AgentEvent.tool_result tc.id m true)).messages ++ [CMsg.toolResultMsg tc.id m],
            calls := st.calls + 1 }
        refine ⟨AgentEvent.tool_call tc.id (tcName tc) (tcArgs tc) ::
                AgentEvent.tool_result tc.id m true :: d, ?_,
          chunked_append (chunked_pair _ _ _ _ _) hcd⟩
        have heq : chatExecCalls sched tool st (tc :: rest) =
            chatExecCalls sched tool
              { emitC (emitC { st with tick := st.tick + 1 } (AgentEvent.tool_call tc.id (tcName tc) (tcArgs tc)))
                  (AgentEvent.tool_result tc.id m true) with
                messages := (emitC (emitC { st with tick := st.tick + 1 } (AgentEvent.tool_call tc.id (tcName tc) (tcArgs tc)))
                  (AgentEvent.tool_result tc.id m true)).messages ++ [CMsg.toolResultMsg tc.id m],
                calls := st.calls + 1 } rest := by
          simp [chatExecCalls, ha, htool, emitC]
        rw [heq, hd]
        simp [emitC]

theorem chatProcessFinal_delta (st : ChatState) (message : ChatMessage) :
    ∃ d, (chatProcessFinal st message).1.events = st.events ++ d ∧ Chunked d := by
  unfold chatProcessFinal
  cases message.content with
  | none => exact ⟨[], by simp, chunked_nil⟩
  | some c =>
    by_cases hc : c = ""
    · exact ⟨[], by simp [hc], chunked_nil⟩
    · refine ⟨[AgentEvent.assistant_message c], ?_, chunked_single (by simp [isChunk, isToolCallEv, isToolResultEv])⟩
      simp [hc, emitC]

theorem chatProcessMessage_delta (sched : AbortSched) (tool : ToolOracle) (st : ChatState)
    (message : ChatMessage) :
    ∃ d, (chatProcessMessage sched tool st message).1.events = st.events ++ d ∧ Chunked d := by
  unfold chatProcessMessage
  cases htc : message.tool_calls with
  | none => exact chatProcessFinal_delta st message
  | some tcs =>
    by_cases hlen : tcs.length > 0
    · simp only [hlen, if_true]
      obtain ⟨d, hd, hcd⟩ := chatExecCalls_delta sched tool tcs
        { st with messages := st.messages ++ [CMsg.assistantCalls (strOrNull message.content) tcs] }
      exact ⟨d, by simpa using hd, hcd⟩
    · simp only [hlen, if_false]
      exact chatProcessFinal_delta st message

theorem emitChatUsage_delta (st : ChatState) (u : Option ChatUsage) :
    ∃ d, (emitChatUsage st u).events = st.events ++ d ∧ Chunked d := by
  cases u with
  | none => exact ⟨[], by simp [emitChatUsage], chunked_nil⟩
  | some usage =>
    refine ⟨[AgentEvent.token_usage (usage.prompt_tokens.getD 0) (usage.completion_tokens.getD 0)
      (usage.total_tokens.getD 0) (usage.cached_tokens.getD 0) 0], ?_,
      chunked_single (by simp [isChunk, isToolCallEv, isToolResultEv])⟩
    simp [emitChatUsage, emitC]

theorem chatLoop_delta (sched : AbortSched) (script : ChatScript) (tool : ToolOracle) :
    ∀ (fuel : Nat) (st : ChatState),
      ∃ d, (chatLoop sched script tool fuel st).1.events = st.events ++ d ∧ Chunked d := by
  intro fuel
  induction fuel with
  | zero => intro st; exact ⟨[], by simp [chatLoop], chunked_nil⟩
  | succ n ih =>
    intro st
    by_cases hdone : st.responded
    · exact ⟨[], by simp [chatLoop, hdone], chunked_nil⟩
    · replace hdone : st.responded = false := by simpa using hdone
      by_cases ha : sched st.tick
      · refine ⟨[AgentEvent.interrupted], ?_, chunked_single (by simp [isChunk, isToolCallEv, isToolResultEv])⟩
        simp [chatLoop, hdone, ha, emitC]
      · replace ha : sched st.tick = false := by simpa using ha
        cases hscr : script st.round with
        | abortErr => exact ⟨[], by simp [chatLoop, hdone, ha, hscr], chunked_nil⟩
        | throwErr m => exact ⟨[], by simp [chatLoop, hdone, ha, hscr], chunked_nil⟩
        | ok resp =>
          obtain ⟨d1, hd1, hc1⟩ := emitChatUsage_delta
            { st with responded := false, round := st.round + 1, tick := st.tick + 1 } resp.usage
          obtain ⟨d2, hd2, hc2⟩ := chatProcessMessage_delta sched tool
            (emitChatUsage { st with responded := false, round := st.round + 1, tick := st.tick + 1 } resp.usage)
            resp.message
          cases hmsg : chatProcessMessage sched tool
            (emitChatUsage { st with responded := false, round := st.round + 1, tick := st.tick + 1 } resp.usage)
            resp.message with
          | mk st1 oex =>
            rw [hmsg] at hd2
            simp only [] at hd2
            cases oex with
            | some ex =>
              refine ⟨d1 ++ d2, ?_, chunked_append hc1 hc2⟩
              simp [chatLoop, hdone, ha, hscr, hmsg]
              rw [hd2, hd1, List.append_assoc]
            | none =>
              obtain ⟨d3, hd3, hc3⟩ := ih st1
              refine ⟨d1 ++ (d2 ++ d3), ?_, chunked_append hc1 (chunked_append hc2 hc3)⟩
              have heq : (chatLoop sched script tool (n + 1) st).1 = (chatLoop sched script tool n st1).1 := by
                simp [chatLoop, hdone, ha, hscr, hmsg]
              rw [heq, hd3, hd2, hd1]
              simp [List.append_assoc]

theorem callChatModel_chunked (sched : AbortSched) (script : ChatScript) (tool : ToolOracle)
    (fuel : Nat) (messages : List CMsg) :
    Chunked (callChatModel sched script tool fuel messages).1.events := by
  obtain ⟨d, hd, hc⟩ := chatLoop_delta sched script tool fuel
    { messages := messages, events := [AgentEvent.assistant_start], responded := false,
      round := 0, tick := 0, calls := 0 }
  rw [callChatModel, hd]
  exact chunked_append (chunked_single (by simp [isChunk, isToolCallEv, isToolResultEv])) hc

theorem chatReplayStep_msgs_extend (s : ChatReplayState) (e : AgentEvent) :
    ∃ d, (chatReplayStep s e).msgs = s.msgs ++ d := by
  cases e with
  | user_message t => exact ⟨[CMsg.user t], rfl⟩
  | assistant_start => exact ⟨[], (List.append_nil _).symm⟩
  | tool_call id n a => exact ⟨[], (List.append_nil _).symm⟩
  | tool_result id r b =>
    by_cases hp : s.pending.length > 0
    · refine ⟨[CMsg.assistantCalls none s.pending, CMsg.toolResultMsg id r], ?_⟩
      simp [chatReplayStep, hp]
    · refine ⟨[CMsg.toolResultMsg id r], ?_⟩
      simp [chatReplayStep, hp]
  | assistant_message t => exact ⟨[CMsg.assistantFinal t], rfl⟩
  | thinking t => exact ⟨[], (List.append_nil _).symm⟩
  | error m => exact ⟨[], (List.append_nil _).symm⟩
  | interrupted => exact ⟨[], (List.append_nil _).symm⟩
  | token_usage a b c d e => exact ⟨[], (List.append_nil _).symm⟩

theorem chatReplay_msgs_extend (evs : List AgentEvent) :
    ∀ s : ChatReplayState, ∃ d, (List.foldl chatReplayStep s evs).msgs = s.msgs ++ d := by
  induction evs with
  | nil => intro s; exact ⟨[], (List.append_nil _).symm⟩
  | cons e rest ih =>
    intro s
    obtain ⟨d0, hd0⟩ := chatReplayStep_msgs_extend s e
    obtain ⟨d1, hd1⟩ := ih (chatReplayStep s e)
    exact ⟨d0 ++ d1, by rw [List.foldl_cons, hd1, hd0, List.append_assoc]⟩

theorem chunked_unique_result {tr : List AgentEvent} (hc : Chunked tr)
    (hnd : (callIdsOf tr).Nodup) :
    ∀ pre id n a post, tr = pre ++ AgentEvent.tool_call id n a :: post →
      countResults id post = 1 := by
  obtain ⟨cs, hcs, rfl⟩ := hc
  intro pre id n a post heq
  exact chunk_exact id cs hcs hnd pre n a post heq

/-! Claim theorems. -/

/-- C1: the claim says that in `callModelResponsesApi` every output item of
type "message" is re-appended to the outbound transcript with its type
discriminator removed.  The code (src/agent/agent.ts lines 88-95) instead
compares `item.id` — not `item.type` — against "message" and pushes the
original item in both branches, so a message item keeps its `type` field;
the sibling implementation `callGptOssModel` (src/unnamed/part_007 lines
229-236) performs the strip as documented.  This theorem evaluates both
push functions at a message item. -/
theorem c1_message_item_type_not_stripped :
    pushOutputItemAgent msgItemC1 = RMsg.item msgItemC1 true ∧
    pushOutputItemAgent msgItemC1 ≠ RMsg.item msgItemC1 false ∧
    pushOutputItemGptOss msgItemC1 = RMsg.item msgItemC1 false := by
  decide

/-- C3: over a full run of either adapter, provided the tool-call ids handed
out by the model are pairwise distinct (they are server-generated
identifiers), every `tool_call` event is followed by exactly one later
`tool_result` event carrying the same toolCallId.  The result is emitted in
the tool-success and the tool-failure branch alike, and no abort check sits
between the call and its result, so this holds for interrupted turns as
well. -/
theorem c3_tool_call_unique_result
    (sched : AbortSched) (script : RespScript) (tool : ToolOracle) (fuel : Nat) (m0 : List RMsg)
    (sched2 : AbortSched) (script2 : ChatScript) (tool2 : ToolOracle) (fuel2 : Nat) (m2 : List CMsg)
    (hnd : (callIdsOf (callResponsesModel sched script tool fuel m0).1.events).Nodup)
    (hnd2 : (callIdsOf (callChatModel sched2 script2 tool2 fuel2 m2).1.events).Nodup) :
    (∀ pre id n a post,
      (callResponsesModel sched script tool fuel m0).1.events =
        pre ++ AgentEvent.tool_call id n a :: post →
      countResults id post = 1) ∧
    (∀ pre id n a post,
      (callChatModel sched2 script2 tool2 fuel2 m2).1.events =
        pre ++ AgentEvent.tool_call id n a :: post →
      countResults id post = 1) :=
  ⟨chunked_unique_result (callResponsesModel_chunked sched script tool fuel m0) hnd,
   chunked_unique_result (callChatModel_chunked sched2 script2 tool2 fuel2 m2) hnd2⟩

/-- Witness for C3: a concrete one-round run of each adapter; the single
`tool_call` of each trace is followed by exactly one matching
`tool_result`. -/
theorem c3_tool_call_unique_result_witness :
    countResults "call_1" [AgentEvent.tool_result "call_1" "ok" false] = 1 ∧
    countResults "tc_1" [AgentEvent.tool_result "tc_1" "ok" false] = 1 :=
  ⟨(c3_tool_call_unique_result neverAbort toolOnlyScript okTool 1 []
      neverAbort chatOneCallScript okTool 1 [] (by decide) (by decide)).1
      [AgentEvent.assistant_start] "call_1" "read" "\x7b\x7d"
      [AgentEvent.tool_result "call_1" "ok" false] (by decide),
   (c3_tool_call_unique_result neverAbort toolOnlyScript okTool 1 []
      neverAbort chatOneCallScript okTool 1 [] (by decide) (by decide)).2
      [AgentEvent.assistant_start] "tc_1" "read" "\x7b\x7d"
      [AgentEvent.tool_result "tc_1" "ok" false] (by decide)⟩

/-- C5: when one round's output of the structured-output adapter is a
reasoning item followed by a function-call item, the engine processes the
items in order, emitting `thinking` before `tool_call` (then the paired
`tool_result`), and emits no `assistant_message` for that round. -/
theorem c5_reasoning_then_function_call (st : RespState) (t : String) (jd : Option String)
    (n a : String) (cid : Option String) (tool : ToolOracle) :
    (respProcessItems neverAbort tool st [mkReasoningItem t, mkFunctionCallItem jd n a cid]).1.events =
      st.events ++ [AgentEvent.thinking t, AgentEvent.tool_call (jd.getD "") n a,
        toolResultEvent (jd.getD "") (tool st.calls n a)] ∧
    (respProcessItems neverAbort tool st [mkReasoningItem t, mkFunctionCallItem jd n a cid]).2 = none ∧
    (∀ s, AgentEvent.assistant_message s ∉
      [AgentEvent.thinking t, AgentEvent.tool_call (jd.getD "") n a,
        toolResultEvent (jd.getD "") (tool st.calls n a)]) := by
  refine ⟨?_, ?_, ?_⟩
  · cases htool : tool st.calls n a <;>
      simp [respProcessItems, respProcessItem, mkReasoningItem, mkFunctionCallItem,
        respReasoningContents, neverAbort, pushOutputItemAgent, emitR, toolResultEvent, htool,
        List.append_assoc]
  · cases htool : tool st.calls n a <;>
      simp [respProcessItems, respProcessItem, mkReasoningItem, mkFunctionCallItem,
        respReasoningContents, neverAbort, pushOutputItemAgent, emitR, htool]
  · intro s
    cases htool : tool st.calls n a <;> simp [toolResultEvent, htool]

/-- C7: replaying a persisted event sequence whose last event is
`interrupted` rebuilds, for either protocol flavor, exactly the transcript of
the sequence without that trailing event: the trailing interruption
contributes no entry, in particular no phantom assistant message. -/
theorem c7_trailing_interrupted_not_replayed (sp : String) (evs : List AgentEvent) :
    respSetEvents sp (evs ++ [AgentEvent.interrupted]) = respSetEvents sp evs ∧
    chatSetEvents sp (evs ++ [AgentEvent.interrupted]) = chatSetEvents sp evs := by
  constructor
  · simp [respSetEvents, List.filterMap_append, respReplayEntry]
  · simp [chatSetEvents, List.foldl_append, chatReplayStep]

/-- C8: the claim says the read tool fails with a distinguished `ToolError`
on a missing file or a missing `path` argument.  `executeTool`
(src/unnamed/part_007 lines 145-179) instead RETURNS the human-readable
message as an ordinary result string in both situations; nothing is thrown.
This theorem evaluates `executeTool` at both failing invocations. -/
theorem c8_read_failure_returns_ordinary_result :
    executeToolPrompt (fun _ => none) (fun _ => none) (fun _ => Except.ok "") (fun s => s)
        "read_file" { path := some "/nope", command := none } =
      ExecOut.ok "File not found: /nope" ∧
    (executeToolPrompt (fun _ => none) (fun _ => none) (fun _ => Except.ok "") (fun s => s)
        "read_file" { path := some "/nope", command := none }).isThrown = false ∧
    executeToolPrompt (fun _ => none) (fun _ => none) (fun _ => Except.ok "") (fun s => s)
        "read_file" { path := none, command := none } =
      ExecOut.ok "Error: path parameter is required" := by
  decide

/-- C8 (amended): read-tool failures are reported as ordinary result strings
carrying a human-readable message — `File not found: <resolved path>` for an
absent file and `Error: path parameter is required` for a missing argument —
not as thrown failures. -/
theorem c8_read_failures_are_result_strings (fs : String → Option String)
    (dirs : String → Option (List String)) (runCmd : String → Except String String)
    (resolvePath : String → String) (p : String) (c : Option String)
    (hp : p ≠ "") (habs : fs (resolvePath p) = none) :
    executeToolPrompt fs dirs runCmd resolvePath "read_file" { path := some p, command := c } =
      ExecOut.ok ("File not found: " ++ resolvePath p) ∧
    executeToolPrompt fs dirs runCmd resolvePath "read_file" { path := none, command := c } =
      ExecOut.ok "Error: path parameter is required" := by
  constructor
  · simp [executeToolPrompt, strTruthy, hp, habs]
  · simp [executeToolPrompt, strTruthy]

/-- Witness for the amended C8 at a concrete missing file. -/
theorem c8_read_failures_are_result_strings_witness :
    executeToolPrompt (fun _ => none) (fun _ => none) (fun _ => Except.ok "") (fun s => s)
        "read_file" { path := some "/missing.txt", command := none } =
      ExecOut.ok ("File not found: " ++ "/missing.txt") ∧
    executeToolPrompt (fun _ => none) (fun _ => none) (fun _ => Except.ok "") (fun s => s)
        "read_file" { path := none, command := none } =
      ExecOut.ok "Error: path parameter is required" :=
  c8_read_failures_are_result_strings (fun _ => none) (fun _ => none) (fun _ => Except.ok "")
    (fun s => s) "/missing.txt" none (by decide) rfl

/-- C9: the record `SessionManager.logSession` serializes is independent of
the `apiKey` field of the session configuration: two configurations equal in
every other field produce byte-for-byte the same persisted line (given the
same session id, timestamp and working directory). -/
theorem c9_api_key_never_persisted (sid ts cwd : String) (c1 c2 : SessionConfig)
    (hm : c1.model = c2.model) (hb : c1.baseURL = c2.baseURL)
    (hg : c1.isGptOss = c2.isGptOss) (hs : c1.systemPrompt = c2.systemPrompt) :
    logSessionLine sid ts cwd c1 = logSessionLine sid ts cwd c2 := by
  simp [logSessionLine, serializeSessionRecord, logSessionRecord, hm, hb, hg, hs]

/-- Witness for C9: two configurations differing only in `apiKey` (one
carrying a secret, one none) persist identically. -/
theorem c9_api_key_never_persisted_witness :
    logSessionLine "sid-1" "2025-01-01T00:00:00Z" "/work"
      { model := "m", baseURL := "http://h:8000/v1", isGptOss := true,
        apiKey := some "sk-secret", systemPrompt := some "s" } =
    logSessionLine "sid-1" "2025-01-01T00:00:00Z" "/work"
      { model := "m", baseURL := "http://h:8000/v1", isGptOss := true,
        apiKey := none, systemPrompt := some "s" } :=
  c9_api_key_never_persisted "sid-1" "2025-01-01T00:00:00Z" "/work" _ _ rfl rfl rfl rfl

/-- C10: after `Agent.setEvents` with a non-empty configured system prompt,
the rebuilt transcript of either flavor starts with the system entry built
from the agent's own configuration — for every replayed event list — and the
result is independent of whatever transcript the agent held before the call
(the source starts with `this.messages = []`). -/
theorem c10_system_prompt_heads_rebuilt_transcript (sp : String)
    (old1 old2 : List RespReplayEntry) (old3 old4 : List CMsg) (evs : List AgentEvent)
    (h : sp ≠ "") :
    (respSetEventsFrom old1 sp evs).head? = some (RespReplayEntry.system sp) ∧
    respSetEventsFrom old1 sp evs = respSetEventsFrom old2 sp evs ∧
    (chatSetEventsFrom old3 sp evs).head? = some (CMsg.system sp) ∧
    chatSetEventsFrom old3 sp evs = chatSetEventsFrom old4 sp evs := by
  refine ⟨?_, rfl, ?_, rfl⟩
  · simp [respSetEventsFrom, respSetEvents, h]
  · obtain ⟨d, hd⟩ := chatReplay_msgs_extend evs
      { msgs := if sp = "" then [] else [CMsg.system sp], pending := [] }
    rw [chatSetEventsFrom, chatSetEvents, hd]
    simp [h]

/-- Witness for C10 at a concrete prompt, event list and prior transcripts. -/
theorem c10_system_prompt_witness :
    (respSetEventsFrom [RespReplayEntry.user "stale"] "You are helpful." [AgentEvent.user_message "q"]).head? =
      some (RespReplayEntry.system "You are helpful.") ∧
    respSetEventsFrom [RespReplayEntry.user "stale"] "You are helpful." [AgentEvent.user_message "q"] =
      respSetEventsFrom [] "You are helpful." [AgentEvent.user_message "q"] ∧
    (chatSetEventsFrom [CMsg.user "stale"] "You are helpful." [AgentEvent.user_message "q"]).head? =
      some (CMsg.system "You are helpful.") ∧
    chatSetEventsFrom [CMsg.user "stale"] "You are helpful." [AgentEvent.user_message "q"] =
      chatSetEventsFrom [] "You are helpful." [AgentEvent.user_message "q"] :=
  c10_system_prompt_heads_rebuilt_transcript "You are helpful."
    [RespReplayEntry.user "stale"] [] [CMsg.user "stale"] [] [AgentEvent.user_message "q"]
    (by decide)

theorem chatExecCalls_neverAbort (tool : ToolOracle) :
    ∀ (tcs : List ChatToolCall) (st : ChatState),
      chatExecCalls neverAbort tool st tcs =
        ({ st with messages := st.messages ++ chatToolMsgs tool st.calls tcs,
                   events := st.events ++ chatToolEvents tool st.calls tcs,
                   tick := st.tick + tcs.length,
                   calls := st.calls + tcs.length }, none) := by
  intro tcs
  induction tcs with
  | nil => intro st; simp [chatExecCalls, chatToolMsgs, chatToolEvents]
  | cons tc rest ih =>
    intro st
    cases htool : tool st.calls (tcName tc) (tcArgs tc) with
    | ok r =>
      have hstep : chatExecCalls neverAbort tool st (tc :: rest) =
          chatExecCalls neverAbort tool
            { st with messages := st.messages ++ [CMsg.toolResultMsg tc.id r],
                      events := st.events ++ [AgentEvent.tool_call tc.id (tcName tc) (tcArgs tc),
                        AgentEvent.tool_result tc.id r false],
                      tick := st.tick + 1, calls := st.calls + 1 } rest := by
        simp [chatExecCalls, neverAbort, htool, emitC]
      rw [hstep, ih]
      have h1 : st.tick + 1 + rest.length = st.tick + (rest.length + 1) := by omega
      have h2 : st.calls + 1 + rest.length = st.calls + (rest.length + 1) := by omega
      simp [chatToolMsgs, chatToolEvents, htool, resultString, resultIsError,
        List.append_assoc, h1, h2, List.length_cons]
    | error m =>
      have hstep : chatExecCalls neverAbort tool st (tc :: rest) =
          chatExecCalls neverAbort tool
            { st with messages := st.messages ++ [CMsg.toolResultMsg tc.id m],
                      events := st.events ++ [AgentEvent.tool_call tc.id (tcName tc) (tcArgs tc),
                        AgentEvent.tool_result tc.id m true],
                      tick := st.tick + 1, calls := st.calls + 1 } rest := by
        simp [chatExecCalls, neverAbort, htool, emitC]
      rw [hstep, ih]
      have h1 : st.tick + 1 + rest.length = st.tick + (rest.length + 1) := by omega
      have h2 : st.calls + 1 + rest.length = st.calls + (rest.length + 1) := by omega
      simp [chatToolMsgs, chatToolEvents, htool, resultString, resultIsError,
        List.append_assoc, h1, h2, List.length_cons]

/-- C6: when a round of the chat-style adapter returns an assistant message
carrying tool calls, the engine executes them sequentially in the given
order (the n-th call is the n-th tool invocation) and the resulting
transcript is the previous transcript, then the assistant entry holding all
the tool calls, immediately followed by one role-"tool" result entry per
call, keyed by the call's id, in call order; the emitted events are the
matching `tool_call`/`tool_result` pairs in the same order. -/
theorem c6_chat_round_executes_calls_in_order (st : ChatState) (content : Option String)
    (tcs : List ChatToolCall) (tool : ToolOracle) (h : tcs ≠ []) :
    (chatProcessMessage neverAbort tool st { content := content, tool_calls := some tcs }).1.messages =
      st.messages ++ CMsg.assistantCalls (strOrNull content) tcs :: chatToolMsgs tool st.calls tcs ∧
    (chatProcessMessage neverAbort tool st { content := content, tool_calls := some tcs }).1.events =
      st.events ++ chatToolEvents tool st.calls tcs ∧
    (chatProcessMessage neverAbort tool st { content := content, tool_calls := some tcs }).2 = none := by
  have hlen : tcs.length > 0 := List.length_pos.mpr h
  unfold chatProcessMessage
  simp only [hlen, if_true]
  rw [chatExecCalls_neverAbort]
  simp [List.append_assoc]

/-- Witness for C6: a round with two tool calls; the transcript places the
assistant entry first and both results after it, in call order, keyed by the
call ids. -/
theorem c6_chat_round_executes_calls_in_order_witness :
    (chatProcessMessage neverAbort okTool chatW0 { content := none, tool_calls := some [tcW, tcW2] }).1.messages =
      chatW0.messages ++ CMsg.assistantCalls (strOrNull none) [tcW, tcW2] ::
        chatToolMsgs okTool chatW0.calls [tcW, tcW2] ∧
    (chatProcessMessage neverAbort okTool chatW0 { content := none, tool_calls := some [tcW, tcW2] }).1.events =
      chatW0.events ++ chatToolEvents okTool chatW0.calls [tcW, tcW2] ∧
    (chatProcessMessage neverAbort okTool chatW0 { content := none, tool_calls := some [tcW, tcW2] }).2 = none :=
  c6_chat_round_executes_calls_in_order chatW0 none [tcW, tcW2] okTool (by decide)

theorem respLoop_toolOnly_fuelOut :
    ∀ (n : Nat) (st : RespState), st.done = false →
      (respLoop neverAbort toolOnlyScript okTool n st).2 = LoopExit.fuelOut ∧
      countErrors (respLoop neverAbort toolOnlyScript okTool n st).1.events = countErrors st.events := by
  intro n
  induction n with
  | zero => intro st h; exact ⟨rfl, rfl⟩
  | succ k ih =>
    intro st h
    have hstep : respLoop neverAbort toolOnlyScript okTool (k + 1) st =
        respLoop neverAbort toolOnlyScript okTool k
          { messages := st.messages ++ [RMsg.item fcItem true,
              RMsg.function_call_output (some "call_1") "ok" none],
            events := st.events ++ [AgentEvent.tool_call "call_1" "read" "\x7b\x7d",
              AgentEvent.tool_result "call_1" "ok" false],
            done := false, round := st.round + 1, tick := st.tick + 2, calls := st.calls + 1 } := by
      simp [respLoop, h, neverAbort, toolOnlyScript, okTool, emitRespUsage, respProcessItems,
        respProcessItem, fcItem, mkFunctionCallItem, pushOutputItemAgent, emitR]
    obtain ⟨ha, hb⟩ := ih
      { messages := st.messages ++ [RMsg.item fcItem true,
          RMsg.function_call_output (some "call_1") "ok" none],
        events := st.events ++ [AgentEvent.tool_call "call_1" "read" "\x7b\x7d",
          AgentEvent.tool_result "call_1" "ok" false],
        done := false, round := st.round + 1, tick := st.tick + 2, calls := st.calls + 1 } rfl
    refine ⟨by rw [hstep]; exact ha, ?_⟩
    rw [hstep, hb]
    simp [countErrors_append, countErrors, isErrorEv]

/-- C2 counterexample: the claim says the conversation engine's round loop is
guarded by a hard round cap and emits an `error` event when a model that
keeps returning tool calls exceeds it.  The round loops of
`callModelResponsesApi`/`callModelChatCompletionsApi` in src/agent/agent.ts
are plain `while (!done)` loops with no cap: against a model that returns a
tool call every round, the loop is still running after any number of rounds
(`fuelOut` for every unrolling depth) and no `error` event is ever
emitted. -/
theorem c2_core_loop_has_no_round_cap :
    (¬ ∃ n : Nat, (callResponsesModel neverAbort toolOnlyScript okTool n []).2 ≠ LoopExit.fuelOut) ∧
    (∀ n : Nat, countErrors (callResponsesModel neverAbort toolOnlyScript okTool n []).1.events = 0) := by
  constructor
  · rintro ⟨n, hn⟩
    exact hn (respLoop_toolOnly_fuelOut n
      { messages := [], events := [AgentEvent.assistant_start], done := false,
        round := 0, tick := 0, calls := 0 } rfl).1
  · intro n
    have h := (respLoop_toolOnly_fuelOut n
      { messages := [], events := [AgentEvent.assistant_start], done := false,
        round := 0, tick := 0, calls := 0 } rfl).2
    rw [callResponsesModel, h]
    decide

theorem gptOssProcessItem_fc (tool : ToolOracle) (st : GState) (it : OutputItem)
    (h : it.itemType = "function_call") :
    (gptOssProcessItem tool st it).done = st.done ∧
    (gptOssProcessItem tool st it).round = st.round := by
  unfold gptOssProcessItem
  simp only [h]
  cases htool : tool st.calls it.name it.arguments <;> simp [htool, gptOssDisplay]

theorem gptOssProcessItems_fc (tool : ToolOracle) :
    ∀ (items : List OutputItem) (st : GState),
      items.all (fun it => it.itemType == "function_call") = true →
      (gptOssProcessItems tool st items).done = st.done ∧
      (gptOssProcessItems tool st items).round = st.round := by
  intro items
  induction items with
  | nil => intro st _; exact ⟨rfl, rfl⟩
  | cons it rest ih =>
    intro st h
    simp only [List.all_cons, Bool.and_eq_true, beq_iff_eq] at h
    obtain ⟨h1, h2⟩ := h
    obtain ⟨ha, hb⟩ := gptOssProcessItem_fc tool st it h1
    obtain ⟨hc, hd⟩ := ih (gptOssProcessItem tool st it) (by simpa using h2)
    exact ⟨by rw [show gptOssProcessItems tool st (it :: rest) =
        gptOssProcessItems tool (gptOssProcessItem tool st it) rest from rfl, hc, ha],
      by rw [show gptOssProcessItems tool st (it :: rest) =
        gptOssProcessItems tool (gptOssProcessItem tool st it) rest from rfl, hd, hb]⟩

theorem gptOssLoop_toolOnly (script : GptOssScript) (tool : ToolOracle)
    (h : ∀ k, ∃ items, script k = some items ∧
      items.all (fun it => it.itemType == "function_call") = true) :
    ∀ (fuel : Nat) (st : GState), st.done = false →
      (gptOssLoop script tool fuel st).done = false ∧
      (gptOssLoop script tool fuel st).round = st.round + fuel := by
  intro fuel
  induction fuel with
  | zero => intro st hd; exact ⟨hd, rfl⟩
  | succ k ih =>
    intro st hd
    obtain ⟨items, hscr, hfc⟩ := h st.round
    have hstep : gptOssLoop script tool (k + 1) st =
        gptOssLoop script tool k
          (gptOssProcessItems tool { st with done := false, round := st.round + 1 } items) := by
      simp [gptOssLoop, hd, hscr]
    obtain ⟨hdone', hround'⟩ := gptOssProcessItems_fc tool items
      { st with done := false, round := st.round + 1 } hfc
    obtain ⟨ha, hb⟩ := ih (gptOssProcessItems tool { st with done := false, round := st.round + 1 } items)
      (by rw [hdone'])
    refine ⟨by rw [hstep]; exact ha, ?_⟩
    rw [hstep, hb, hround']
    show st.round + 1 + k = st.round + (k + 1)
    omega

/-- C2 (amended): the current core engine has no round cap (see the
counterexample), but the legacy gpt-oss prompt loop cited by the claim,
`callGptOssModel` in src/unnamed/part_007, does bound its round loop by a
fixed `maxRounds = 10`: against a model that keeps returning tool calls it
stops after exactly 10 rounds, without completion, and its last display is
the error `Max rounds reached without completion`.  (The later copies in
src/commands/prompt.ts and src/commands/agent.ts use the same structure with
`maxRounds = 10000`.) -/
theorem c2_legacy_loop_capped_with_error (script : GptOssScript) (tool : ToolOracle)
    (messages : List RMsg)
    (h : ∀ k, ∃ items, script k = some items ∧
      items.all (fun it => it.itemType == "function_call") = true) :
    (callGptOssModelRun script tool messages).round = gptOssMaxRounds ∧
    (callGptOssModelRun script tool messages).done = false ∧
    (callGptOssModelRun script tool messages).displays.getLast? =
      some (DisplayEvent.errorD "Max rounds reached without completion") := by
  obtain ⟨hdone, hround⟩ := gptOssLoop_toolOnly script tool h gptOssMaxRounds
    { messages := messages, displays := [DisplayEvent.assistantLabelD],
      done := false, round := 0, calls := 0 } rfl
  simp only [callGptOssModelRun]
  rw [hdone]
  simp only [Bool.false_eq_true, if_false]
  refine ⟨by simpa using hround, by simpa [gptOssDisplay] using hdone, ?_⟩
  simp [gptOssDisplay, List.getLast?_append_cons]

/-- Witness for the amended C2: the concrete always-tool-calling script runs
the legacy loop for exactly 10 rounds and ends with the convergence error. -/
theorem c2_legacy_loop_capped_with_error_witness :
    (callGptOssModelRun gptOssToolOnlyScript okTool []).round = gptOssMaxRounds ∧
    (callGptOssModelRun gptOssToolOnlyScript okTool []).done = false ∧
    (callGptOssModelRun gptOssToolOnlyScript okTool []).displays.getLast? =
      some (DisplayEvent.errorD "Max rounds reached without completion") :=
  c2_legacy_loop_capped_with_error gptOssToolOnlyScript okTool []
    (fun _ => ⟨[fcItem], rfl, by decide⟩)

theorem respReasoningContents_counts (cs : List RespContent) :
    ∀ st : RespState,
      countErrors (respReasoningContents st cs).events = countErrors st.events ∧
      countInterrupted (respReasoningContents st cs).events = countInterrupted st.events := by
  induction cs with
  | nil => intro st; exact ⟨rfl, rfl⟩
  | cons c rest ih =>
    intro st
    cases c with
    | reasoning_text t =>
      obtain ⟨ha, hb⟩ := ih (emitR st (AgentEvent.thinking t))
      constructor
      · rw [show respReasoningContents st (RespContent.reasoning_text t :: rest) =
          respReasoningContents (emitR st (AgentEvent.thinking t)) rest from rfl, ha]
        simp [emitR, countErrors, List.filter_append, isErrorEv]
      · rw [show respReasoningContents st (RespContent.reasoning_text t :: rest) =
          respReasoningContents (emitR st (AgentEvent.thinking t)) rest from rfl, hb]
        simp [emitR, countInterrupted, List.filter_append, isInterruptedEv]
    | output_text t => simpa only [respReasoningContents] using ih st
    | refusal r => simpa only [respReasoningContents] using ih st
    | otherContent ct => simpa only [respReasoningContents] using ih st

theorem respMessageContents_counts (cs : List RespContent) :
    ∀ st : RespState, cs.all (fun c => !isRefusalContent c) = true →
      countErrors (respMessageContents st cs).events = countErrors st.events ∧
      countInterrupted (respMessageContents st cs).events = countInterrupted st.events := by
  induction cs with
  | nil => intro st _; exact ⟨rfl, rfl⟩
  | cons c rest ih =>
    intro st hwf
    simp only [List.all_cons, Bool.and_eq_true] at hwf
    obtain ⟨h1, h2⟩ := hwf
    cases c with
    | reasoning_text t => simpa only [respMessageContents] using ih { st with done := true } h2
    | output_text t =>
      obtain ⟨ha, hb⟩ := ih { emitR st (AgentEvent.assistant_message t) with done := true } h2
      constructor
      · rw [show respMessageContents st (RespContent.output_text t :: rest) =
          respMessageContents { emitR st (AgentEvent.assistant_message t) with done := true } rest from rfl, ha]
        simp [emitR, countErrors, List.filter_append, isErrorEv]
      · rw [show respMessageContents st (RespContent.output_text t :: rest) =
          respMessageContents { emitR st (AgentEvent.assistant_message t) with done := true } rest from rfl, hb]
        simp [emitR, countInterrupted, List.filter_append, isInterruptedEv]
    | refusal r => simp [isRefusalContent] at h1
    | otherContent ct => simpa only [respMessageContents] using ih { st with done := true } h2

theorem respProcessItem_counts (sched : AbortSched) (tool : ToolOracle) (st : RespState)
    (it : OutputItem) (hwf : wfItem it = true) :
    countErrors (respProcessItem sched tool st it).1.events = countErrors st.events ∧
    countInterrupted (respProcessItem sched tool st it).1.events =
      countInterrupted st.events +
        (if (respProcessItem sched tool st it).2 = some LoopExit.interruptedExit then 1 else 0) := by
  unfold respProcessItem
  by_cases h1 : it.itemType = "reasoning"
  · rw [if_pos h1]
    refine ⟨(respReasoningContents_counts it.content _).1, ?_⟩
    rw [(respReasoningContents_counts it.content _).2]
    simp
  · by_cases h2 : it.itemType = "message"
    · rw [if_neg h1, if_pos h2]
      have hnoref : it.content.all (fun c => !isRefusalContent c) = true := by
        simp [wfItem, h1, h2] at hwf
        simpa using hwf
      refine ⟨(respMessageContents_counts it.content _ hnoref).1, ?_⟩
      rw [(respMessageContents_counts it.content _ hnoref).2]
      simp
    · by_cases h3 : it.itemType = "function_call"
      · rw [if_neg h1, if_neg h2, if_pos h3]
        by_cases ha : sched st.tick
        · constructor
          · simp [ha, emitR, countErrors, List.filter_append, isErrorEv]
          · simp [ha, emitR, countInterrupted, List.filter_append, isInterruptedEv]
        · cases htool : tool st.calls it.name it.arguments with
          | ok r =>
            constructor
            · simp [ha, htool, emitR, countErrors, List.filter_append, isErrorEv]
            · simp [ha, htool, emitR, countInterrupted, List.filter_append, isInterruptedEv]
          | error m =>
            constructor
            · simp [ha, htool, emitR, countErrors, List.filter_append, isErrorEv]
            · simp [ha, htool, emitR, countInterrupted, List.filter_append, isInterruptedEv]
      · exfalso
        simp [wfItem, h1, h2, h3] at hwf

theorem respProcessItems_counts (sched : AbortSched) (tool : ToolOracle) (its : List OutputItem) :
    ∀ st : RespState, its.all wfItem = true →
      countErrors (respProcessItems sched tool st its).1.events = countErrors st.events ∧
      countInterrupted (respProcessItems sched tool st its).1.events =
        countInterrupted st.events +
          (if (respProcessItems sched tool st its).2 = some LoopExit.interruptedExit then 1 else 0) := by
  induction its with
  | nil => intro st _; exact ⟨rfl, by simp [respProcessItems]⟩
  | cons it rest ih =>
    intro st hwf
    simp only [List.all_cons, Bool.and_eq_true] at hwf
    obtain ⟨h1, h2⟩ := hwf
    obtain ⟨ha, hb⟩ := respProcessItem_counts sched tool st it h1
    cases hres : respProcessItem sched tool st it with
    | mk st1 oex =>
      rw [hres] at ha hb
      simp only [] at ha hb
      cases oex with
      | some ex =>
        have heq : respProcessItems sched tool st (it :: rest) = (st1, some ex) := by
          simp [respProcessItems, hres]
        rw [heq]
        exact ⟨ha, by simpa using hb⟩
      | none =>
        simp at hb
        have heq : respProcessItems sched tool st (it :: rest) = respProcessItems sched tool st1 rest := by
          simp [respProcessItems, hres]
        obtain ⟨hc, hd⟩ := ih st1 h2
        rw [heq]
        exact ⟨by rw [hc, ha], by rw [hd, hb]⟩

theorem respLoop_counts (sched : AbortSched) (script : RespScript) (tool : ToolOracle)
    (hwf : WfScript script) :
    ∀ (fuel : Nat) (st : RespState),
      countErrors (respLoop sched script tool fuel st).1.events = countErrors st.events ∧
      countInterrupted (respLoop sched script tool fuel st).1.events =
        countInterrupted st.events +
          (if (respLoop sched script tool fuel st).2 = LoopExit.interruptedExit then 1 else 0) := by
  intro fuel
  induction fuel with
  | zero => intro st; exact ⟨rfl, by simp [respLoop]⟩
  | succ k ih =>
    intro st
    by_cases hdone : st.done
    · exact ⟨by simp [respLoop, hdone], by simp [respLoop, hdone]⟩
    · replace hdone : st.done = false := by simpa using hdone
      by_cases ha : sched st.tick
      · constructor
        · simp [respLoop, hdone, ha, emitR, countErrors, List.filter_append, isErrorEv]
        · simp [respLoop, hdone, ha, emitR, countInterrupted, List.filter_append, isInterruptedEv]
      · replace ha : sched st.tick = false := by simpa using ha
        cases hscr : script st.round with
        | abortErr => exact ⟨by simp [respLoop, hdone, ha, hscr], by simp [respLoop, hdone, ha, hscr]⟩
        | throwErr m => exact ⟨by simp [respLoop, hdone, ha, hscr], by simp [respLoop, hdone, ha, hscr]⟩
        | ok resp =>
          have hwfi := hwf st.round
          rw [hscr] at hwfi
          have hu : countErrors (emitRespUsage
                { st with done := false, round := st.round + 1, tick := st.tick + 1 } resp.usage).events =
              countErrors st.events ∧
              countInterrupted (emitRespUsage
                { st with done := false, round := st.round + 1, tick := st.tick + 1 } resp.usage).events =
              countInterrupted st.events := by
            cases resp.usage <;>
              simp [emitRespUsage, emitR, countErrors, countInterrupted, List.filter_append,
                isErrorEv, isInterruptedEv]
          cases hout : resp.output with
          | none =>
            have heq : respLoop sched script tool (k + 1) st =
                (emitRespUsage { st with done := false, round := st.round + 1, tick := st.tick + 1 }
                  resp.usage, LoopExit.finished) := by
              simp [respLoop, hdone, ha, hscr, hout]
            rw [heq]
            exact ⟨hu.1, by simpa using hu.2⟩
          | some items =>
            have hwfi2 : items.all wfItem = true := by simpa [wfResp, hout] using hwfi
            obtain ⟨hc, hd⟩ := respProcessItems_counts sched tool items
              (emitRespUsage { st with done := false, round := st.round + 1, tick := st.tick + 1 } resp.usage)
              hwfi2
            cases hitems : respProcessItems sched tool
                (emitRespUsage { st with done := false, round := st.round + 1, tick := st.tick + 1 } resp.usage)
                items with
            | mk st1 oex =>
              rw [hitems] at hc hd
              simp only [] at hc hd
              cases oex with
              | some ex =>
                have heq : respLoop sched script tool (k + 1) st = (st1, ex) := by
                  simp [respLoop, hdone, ha, hscr, hout, hitems]
                rw [heq]
                refine ⟨by rw [hc, hu.1], ?_⟩
                rw [hd, hu.2]
                simp
              | none =>
                simp at hd
                obtain ⟨he, hf⟩ := ih st1
                have heq : respLoop sched script tool (k + 1) st = respLoop sched script tool k st1 := by
                  simp [respLoop, hdone, ha, hscr, hout, hitems]
                rw [heq]
                exact ⟨by rw [he, hc, hu.1], by rw [hf, hd, hu.2]⟩

theorem respTurn_final_exit (sched : AbortSched) (script : RespScript) (tool : ToolOracle)
    (fuel : Nat) (m0 : List RMsg) (u : String) :
    (respTurn sched script tool fuel m0 u).final =
      (respLoop sched script tool fuel (respTurnInit m0 u)).1 ∧
    (respTurn sched script tool fuel m0 u).exit =
      (respLoop sched script tool fuel (respTurnInit m0 u)).2 := by
  rw [respTurn]
  cases hres : respLoop sched script tool fuel (respTurnInit m0 u) with
  | mk st ex =>
    cases ex with
    | finished => exact ⟨rfl, rfl⟩
    | interruptedExit => exact ⟨rfl, rfl⟩
    | fuelOut => exact ⟨rfl, rfl⟩
    | netAbort =>
      constructor <;> · simp only []; split <;> rfl
    | netThrow m =>
      constructor <;> · simp only []; split <;> rfl

/-- C4 counterexample: the claim says every turn in which the cancellation
token fires — including during the network round-trip — contains exactly one
`interrupted` event.  When the token fires while the request is in flight,
`client.responses.create` rejects with an abort error, the adapter's loop
never reaches an abort check, and `Agent.chat` swallows the failure (the
signal is aborted) without emitting anything: the turn's event stream
contains zero `interrupted` events. -/
theorem c4_net_abort_emits_no_interrupted :
    ¬ (countInterrupted (respTurn fireAfterFirstCheck abortingScript okTool 5 [] "hi").final.events = 1) := by
  decide

/-- C4 (amended): for any abort schedule, the turn's stream never attributes
an `error` event to the interruption (with a well-formed model script there
are no `error` events at all), and it contains exactly one `interrupted`
event when the loop ends through an abort check (between rounds, before a
function-call item) — which is also how a cancellation during tool execution
surfaces, at the next check — and zero `interrupted` events otherwise, in
particular when the token fires during the network round-trip. -/
theorem c4_interruption_event_accounting (sched : AbortSched) (script : RespScript)
    (tool : ToolOracle) (fuel : Nat) (m0 : List RMsg) (u : String) (hwf : WfScript script) :
    countErrors (respTurn sched script tool fuel m0 u).final.events = 0 ∧
    countInterrupted (respTurn sched script tool fuel m0 u).final.events =
      (if (respTurn sched script tool fuel m0 u).exit = LoopExit.interruptedExit then 1 else 0) := by
  obtain ⟨hf, he⟩ := respTurn_final_exit sched script tool fuel m0 u
  obtain ⟨h1, h2⟩ := respLoop_counts sched script tool hwf fuel (respTurnInit m0 u)
  constructor
  · rw [hf, h1]
    simp [respTurnInit, countErrors, isErrorEv]
  · rw [hf, he, h2]
    simp [respTurnInit, countInterrupted, isInterruptedEv]

/-- Witness for the amended C4: the token fires between the first response's
arrival and the function-call item, the loop exits through the interrupt
path, and the stream holds exactly one `interrupted` and zero `error`
events. -/
theorem c4_interruption_event_accounting_witness :
    countErrors (respTurn fireAfterFirstCheck toolOnlyScript okTool 3 [] "hi").final.events = 0 ∧
    countInterrupted (respTurn fireAfterFirstCheck toolOnlyScript okTool 3 [] "hi").final.events =
      (if (respTurn fireAfterFirstCheck toolOnlyScript okTool 3 [] "hi").exit =
          LoopExit.interruptedExit then 1 else 0) :=
  c4_interruption_event_accounting fireAfterFirstCheck toolOnlyScript okTool 3 [] "hi"
    (fun _ => rfl)

end Pi
